import Mathlib

/-
Verification of the litmus-condition expression language and partial
evaluator of `isla-axiomatic/src/litmus/exp.rs`, together with the
translation-table-walk primitive.

The embedding is shallow: Rust `u64` arithmetic becomes `Nat` with explicit
`% 2^64` where overflow matters, fallible code returns `Except ExecError`,
and the external collaborators (initial memory, disassembly scanning, the
solver's concrete bit-vector operations) are modelled from the spec's
description of their interfaces.
-/

namespace IslaExp

/-- Concrete bit-vector value: a width `len` and a payload `bits`.
Embeds the concrete case of the `BV` trait of `isla-lib`; the spec's data
model states the integer payload is masked to the width. -/
structure BVal where
  len : Nat
  bits : Nat
deriving DecidableEq, Repr

/-- Modelled from the spec: `B::new(bits, len)` of `isla-lib/src/bitvector.rs`
(not under `src/`) builds a bit-vector of width `len`; per the spec's data
model the "integer payload [is] masked to *w*". -/
def BVal.new (bits len : Nat) : BVal := ⟨len, bits % 2 ^ len⟩

/-- Modelled from the spec: `B::from_u64` gives a 64-bit concrete vector. -/
def BVal.from_u64 (x : Nat) : BVal := BVal.new x 64

/-- Modelled from the spec: `B::from_u16` gives a 16-bit concrete vector. -/
def BVal.from_u16 (x : Nat) : BVal := BVal.new x 16

/-- Modelled from the spec: `B::BIT_ZERO`, the 1-bit zero vector. -/
def BVal.bit_zero : BVal := ⟨1, 0⟩

/-- Modelled from the spec: `BV::lower_u64` truncates the payload to the
low 64 bits. -/
def BVal.lower_u64 (b : BVal) : Nat := b.bits % 2 ^ 64

/-- Modelled from the spec: `bzhi_u64(x, n)` of `isla-lib/src/bitvector.rs`
zeroes the bits of `x` from index `n` upward, i.e. keeps bits below `n`. -/
def bzhi_u64 (x n : Nat) : Nat := x % 2 ^ n

/-- Bitwise complement at width 64, embedding Rust `!x` on `u64`. -/
def u64_not (x : Nat) : Nat := 2 ^ 64 - 1 - x % 2 ^ 64

/-- The value sum `Val` of `isla-lib/src/ir.rs`, restricted to the variants
the litmus expression evaluator produces and consumes: bit-vectors,
booleans, 128-bit signed integers, unit, and symbolic handles. -/
inductive Val where
  | Bits : BVal → Val
  | Bool : Bool → Val
  | I128 : Int → Val
  | Unit : Val
  | Symbolic : Nat → Val
deriving DecidableEq, Repr

/-- The error sum `ExecError` of `isla-lib/src/error.rs`, restricted to the
variants this module raises. -/
inductive ExecError where
  | Type : String → ExecError
  | BadRead : String → ExecError
  | Unimplemented : ExecError
deriving DecidableEq, Repr

/-- `Loc<A>` of `exp.rs`: a register of a thread, or the last write to an
address (the IR register `Name` is an interned id, embedded as `Nat`). -/
inductive Loc (A : Type) where
  | Register : Nat → Nat → Loc A
  | LastWriteTo : A → Nat → Loc A
deriving DecidableEq, Repr

/-- `Exp<A>` of `exp.rs`: the litmus post-condition expression tree.
Keyword arguments of `App` are embedded as an association list in place of
the source's hash map. -/
inductive Exp (A : Type) where
  | EqLoc : Loc A → Exp A → Exp A
  | Loc : A → Exp A
  | Label : String → Exp A
  | True : Exp A
  | False : Exp A
  | Bin : String → Exp A
  | Hex : String → Exp A
  | Bits64 : Nat → Nat → Exp A
  | Nat : Nat → Exp A
  | And : List (Exp A) → Exp A
  | Or : List (Exp A) → Exp A
  | Not : Exp A → Exp A
  | App : String → List (Exp A) → List (String × Exp A) → Exp A
  | Implies : Exp A → Exp A → Exp A

/-- `TranslationTableWalk` of `exp.rs`: the intermediate descriptor
addresses and values of a four-level walk, plus the final physical
address. -/
structure TranslationTableWalk where
  l0pte : Nat
  l0desc : Nat
  l1pte : Nat
  l1desc : Nat
  l2pte : Nat
  l2desc : Nat
  l3pte : Nat
  l3desc : Nat
  pa : Nat
deriving DecidableEq, Repr

/-- The initial-memory collaborator (spec section 6):
`read_initial(addr, bytes)` answers with a value or an error. -/
def Memory : Type := Nat → Nat → Except ExecError Val

/-- `desc_to_u64` of `exp.rs`: a descriptor read must be a concrete
bit-vector; anything else is a `BadRead`. -/
def desc_to_u64 : Val → Except ExecError Nat
  | .Bits bv => .ok bv.lower_u64
  | _ => .error (.BadRead "symbolic descriptor")

/-- Modelled from the spec: `VirtualAddress::level_index` of
`isla-lib/src/page_table.rs` (not under `src/`); spec section 4.1: with
4 KiB pages, bits 12..20, 21..29, 30..38, 39..47 of the virtual address are
the level-3, level-2, level-1, level-0 indices, each in [0, 511]. -/
def level_index (va i : Nat) : Nat := (va >>> (12 + 9 * (3 - i))) % 512

/-- Modelled from the spec: `VirtualAddress::page_offset`; spec section
4.1: the low 12 bits of the virtual address are the page offset. -/
def page_offset (va : Nat) : Nat := va % 2 ^ 12

/-- `memory.read_initial(addr, 8).and_then(desc_to_u64)` of `exp.rs`: read
a descriptor and require it to be concrete. -/
def readDesc (memory : Memory) (addr : Nat) : Except ExecError Nat :=
  (memory addr 8).bind desc_to_u64

/-- The address of the next-level descriptor: `(desc & !0b11) + index * 8`
in `u64` arithmetic. -/
def nextPte (desc idx : Nat) : Nat :=
  ((desc &&& u64_not 0b11) + idx * 8) % 2 ^ 64

/-- The mask `bzhi_u64(!0xFFF, 48)` of `exp.rs`: bits 12..47. -/
def paMask : Nat := bzhi_u64 (u64_not 0xFFF) 48

/-- `translation_table_walk` of `exp.rs`: a simple four-level translation
table walk over the concrete initial memory, recording each intermediate
descriptor address and value and the final physical address. Additions are
`u64` additions, embedded with `% 2^64`. -/
def translation_table_walk (args : List Val) (memory : Memory) :
    Except ExecError TranslationTableWalk :=
  match args with
  | [va_val, table_val] =>
    match va_val with
    | .Bits va_bv =>
      match table_val with
      | .Bits table_bv =>
        let va := va_bv.lower_u64
        let table_addr := table_bv.lower_u64
        let l0pte := (table_addr + level_index va 0 * 8) % 2 ^ 64
        match readDesc memory l0pte with
        | .error e => .error e
        | .ok l0desc =>
          let l1pte := nextPte l0desc (level_index va 1)
          match readDesc memory l1pte with
          | .error e => .error e
          | .ok l1desc =>
            let l2pte := nextPte l1desc (level_index va 2)
            match readDesc memory l2pte with
            | .error e => .error e
            | .ok l2desc =>
              let l3pte := nextPte l2desc (level_index va 3)
              match readDesc memory l3pte with
              | .error e => .error e
              | .ok l3desc =>
                let pa := ((l3desc &&& paMask) + page_offset va) % 2 ^ 64
                .ok ⟨l0pte, l0desc, l1pte, l1desc, l2pte, l2desc, l3pte, l3desc, pa⟩
      | _ => .error (.Type "Table address is not a concrete bitvector for translation")
    | _ => .error (.Type "virtual address is not a concrete bitvector for translation")
  | _ =>
    .error (.Type ("translate must have two arguments (" ++ toString args.length ++ " provided)"))

/-- `KwArgs` of `exp.rs`: the keyword arguments of a primitive call,
consumed by destructive removal (the source's hash map embedded as an
association list). -/
structure KwArgs where
  kw_args : List (String × Val)
deriving DecidableEq, Repr

/-- `KwArgs::remove`: take the (first) entry named `kw`, or fail with a
`Type` error naming the caller; returns the value and the remaining
arguments. -/
def kwRemove (caller kw : String) : List (String × Val) →
    Except ExecError (Val × List (String × Val))
  | [] => .error (.Type (caller ++ " must have a " ++ kw ++ " keyword argument"))
  | (k, v) :: rest =>
    if k = kw then .ok (v, rest)
    else do
      let (v2, rest2) ← kwRemove caller kw rest
      .ok (v2, (k, v) :: rest2)

/-- `KwArgs::remove_or`: take the entry named `kw` if present (flag `true`),
else the default (flag `false`); returns the flag, the value and the
remaining arguments. -/
def kwRemoveOr (kw : String) (dflt : Val) : List (String × Val) →
    Bool × Val × List (String × Val)
  | [] => (false, dflt, [])
  | (k, v) :: rest =>
    if k = kw then (true, v, rest)
    else
      let (b, v2, rest2) := kwRemoveOr kw dflt rest
      (b, v2, (k, v) :: rest2)

/-- Whether a keyword is present among the keyword arguments. -/
def hasKey (kws : List (String × Val)) (kw : String) : Bool :=
  kws.any (fun kv => kv.1 = kw)

namespace primop

/-- Modelled from the spec: `primop::and_bits` of `isla-lib/src/primop.rs`
(not under `src/`) on concrete values; per the spec's data model, bitwise
operations require concrete bit-vectors of equal width. -/
def and_bits : Val → Val → Except ExecError Val
  | .Bits a, .Bits b =>
    if a.len = b.len then .ok (.Bits ⟨a.len, a.bits &&& b.bits⟩)
    else .error (.Type "and_bits length mismatch")
  | _, _ => .error (.Type "and_bits requires concrete bitvectors")

/-- Modelled from the spec: `primop::or_bits` on concrete values. -/
def or_bits : Val → Val → Except ExecError Val
  | .Bits a, .Bits b =>
    if a.len = b.len then .ok (.Bits ⟨a.len, a.bits ||| b.bits⟩)
    else .error (.Type "or_bits length mismatch")
  | _, _ => .error (.Type "or_bits requires concrete bitvectors")

/-- Modelled from the spec: `primop::xor_bits` on concrete values. -/
def xor_bits : Val → Val → Except ExecError Val
  | .Bits a, .Bits b =>
    if a.len = b.len then .ok (.Bits ⟨a.len, a.bits ^^^ b.bits⟩)
    else .error (.Type "xor_bits length mismatch")
  | _, _ => .error (.Type "xor_bits requires concrete bitvectors")

/-- Modelled from the spec: `primop::shift_bits_right` on concrete values;
the result keeps the width of the left operand. -/
def shift_bits_right : Val → Val → Except ExecError Val
  | .Bits a, .Bits b => .ok (.Bits ⟨a.len, a.bits >>> b.bits⟩)
  | _, _ => .error (.Type "shift_bits_right requires concrete bitvectors")

/-- Modelled from the spec: `primop::shift_bits_left` on concrete values;
the result keeps the width of the left operand. -/
def shift_bits_left : Val → Val → Except ExecError Val
  | .Bits a, .Bits b => .ok (.Bits ⟨a.len, (a.bits <<< b.bits) % 2 ^ a.len⟩)
  | _, _ => .error (.Type "shift_bits_left requires concrete bitvectors")

/-- Modelled from the spec: `primop::zero_extend(bits, len)` extends a
concrete bit-vector to the target width `len`, which must not be smaller
than the current width. -/
def zero_extend : Val → Val → Except ExecError Val
  | .Bits a, .I128 n =>
    if a.len ≤ n.toNat then .ok (.Bits ⟨n.toNat, a.bits⟩)
    else .error (.Type "zero_extend target width too small")
  | _, _ => .error (.Type "zero_extend requires a concrete bitvector and length")

/-- Modelled from the spec: `primop::sign_extend(bits, len)` extends a
concrete bit-vector to the target width `len`, replicating the top bit. -/
def sign_extend : Val → Val → Except ExecError Val
  | .Bits a, .I128 n =>
    if a.len ≤ n.toNat then
      .ok (.Bits ⟨n.toNat,
        if a.bits.testBit (a.len - 1) ∧ 0 < a.len then
          a.bits + (2 ^ n.toNat - 2 ^ a.len)
        else a.bits⟩)
    else .error (.Type "sign_extend target width too small")
  | _, _ => .error (.Type "sign_extend requires a concrete bitvector and length")

/-- Modelled from the spec: `primop::set_slice_internal(base, n, update)`
writes `update` into `base` at bit offset `n`, keeping the width of
`base`. -/
def set_slice_internal : Val → Val → Val → Except ExecError Val
  | .Bits b, .I128 n, .Bits u =>
    .ok (.Bits ⟨b.len,
      ((b.bits &&& (2 ^ b.len - 1 - ((2 ^ u.len - 1) <<< n.toNat) % 2 ^ b.len)) |||
        u.bits <<< n.toNat) % 2 ^ b.len⟩)
  | _, _, _ => .error (.Type "set_slice requires concrete arguments")

/-- Modelled from the spec: `primop::subrange_internal(bits, hi, lo)`
extracts the bits below index `hi` from index `lo` upward, a result of
width `hi - lo` (the spec gives `page` width 48 - 12 = 36). -/
def subrange_internal : Val → Val → Val → Except ExecError Val
  | .Bits b, .I128 hi, .I128 lo =>
    .ok (.Bits ⟨(hi - lo).toNat, (b.bits >>> lo.toNat) % 2 ^ (hi - lo).toNat⟩)
  | _, _, _ => .error (.Type "subrange requires concrete arguments")

end primop

/-- Modelled from the spec: `S1PageAttrs::default().bits()` of
`isla-axiomatic/src/page_table.rs` (not under `src/`) — the fixed 64-bit
default stage-1 attribute mask ORed into non-table descriptors. The spec
does not give its concrete value; no claim below depends on it, and the
access-flag bit 10 is used as a stand-in fixed value. -/
def s1_default_attrs : Nat := 0x400

/-- `pte0` of `exp.rs`. -/
def pte0 (args : List Val) (_ : KwArgs) (memory : Memory) : Except ExecError Val := do
  let walk ← translation_table_walk args memory
  .ok (.Bits (BVal.from_u64 walk.l0pte))

/-- `pte1` of `exp.rs`. -/
def pte1 (args : List Val) (_ : KwArgs) (memory : Memory) : Except ExecError Val := do
  let walk ← translation_table_walk args memory
  .ok (.Bits (BVal.from_u64 walk.l1pte))

/-- `pte2` of `exp.rs`. -/
def pte2 (args : List Val) (_ : KwArgs) (memory : Memory) : Except ExecError Val := do
  let walk ← translation_table_walk args memory
  .ok (.Bits (BVal.from_u64 walk.l2pte))

/-- `pte3` of `exp.rs`. -/
def pte3 (args : List Val) (_ : KwArgs) (memory : Memory) : Except ExecError Val := do
  let walk ← translation_table_walk args memory
  .ok (.Bits (BVal.from_u64 walk.l3pte))

/-- `desc0` of `exp.rs`. -/
def desc0 (args : List Val) (_ : KwArgs) (memory : Memory) : Except ExecError Val := do
  let walk ← translation_table_walk args memory
  .ok (.Bits (BVal.from_u64 walk.l0desc))

/-- `desc1` of `exp.rs`. -/
def desc1 (args : List Val) (_ : KwArgs) (memory : Memory) : Except ExecError Val := do
  let walk ← translation_table_walk args memory
  .ok (.Bits (BVal.from_u64 walk.l1desc))

/-- `desc2` of `exp.rs`. -/
def desc2 (args : List Val) (_ : KwArgs) (memory : Memory) : Except ExecError Val := do
  let walk ← translation_table_walk args memory
  .ok (.Bits (BVal.from_u64 walk.l2desc))

/-- `desc3` of `exp.rs`. -/
def desc3 (args : List Val) (_ : KwArgs) (memory : Memory) : Except ExecError Val := do
  let walk ← translation_table_walk args memory
  .ok (.Bits (BVal.from_u64 walk.l3desc))

/-- `pa` of `exp.rs`. -/
def pa (args : List Val) (_ : KwArgs) (memory : Memory) : Except ExecError Val := do
  let walk ← translation_table_walk args memory
  .ok (.Bits (BVal.from_u64 walk.pa))

/-- `bvand` of `exp.rs`: two positional arguments, delegated to `and_bits`. -/
def bvand (args : List Val) (_ : KwArgs) (_ : Memory) : Except ExecError Val :=
  match args with
  | [lhs, rhs] => primop.and_bits lhs rhs
  | _ => .error (.Type ("bvand must have two arguments (" ++ toString args.length ++ " provided)"))

/-- `bvor` of `exp.rs`. -/
def bvor (args : List Val) (_ : KwArgs) (_ : Memory) : Except ExecError Val :=
  match args with
  | [lhs, rhs] => primop.or_bits lhs rhs
  | _ => .error (.Type ("bvor must have two arguments (" ++ toString args.length ++ " provided)"))

/-- `bvxor` of `exp.rs`. -/
def bvxor (args : List Val) (_ : KwArgs) (_ : Memory) : Except ExecError Val :=
  match args with
  | [lhs, rhs] => primop.xor_bits lhs rhs
  | _ => .error (.Type ("bvxor must have two arguments (" ++ toString args.length ++ " provided)"))

/-- `bvlshr` of `exp.rs`. -/
def bvlshr (args : List Val) (_ : KwArgs) (_ : Memory) : Except ExecError Val :=
  match args with
  | [lhs, rhs] => primop.shift_bits_right lhs rhs
  | _ => .error (.Type ("bvlshr must have two arguments (" ++ toString args.length ++ " provided)"))

/-- `bvshl` of `exp.rs`. -/
def bvshl (args : List Val) (_ : KwArgs) (_ : Memory) : Except ExecError Val :=
  match args with
  | [lhs, rhs] => primop.shift_bits_left lhs rhs
  | _ => .error (.Type ("bvshl must have two arguments (" ++ toString args.length ++ " provided)"))

/-- `index` of `exp.rs`: keyword `level` in [0, 3] and exactly one of the
keywords `va` / `ipa`; both present or both absent is a `Type` error. -/
def index (_ : List Val) (kw : KwArgs) (_ : Memory) : Except ExecError Val := do
  let (level, kws1) ← kwRemove "index" "level" kw.kw_args
  let (have_va, va, kws2) := kwRemoveOr "va" (.Bits (BVal.from_u64 0)) kws1
  let (have_ipa, ipa, _) := kwRemoveOr "ipa" (.Bits (BVal.from_u64 0)) kws2
  if have_va = have_ipa then
    .error (.Type "index must have either a va or an ipa argument")
  else
    match (if have_va then va else ipa), level with
    | .Bits bv, .I128 i =>
      if 0 ≤ i ∧ i ≤ 3 then .ok (.I128 (level_index bv.lower_u64 i.toNat))
      else .error (.Type "index must have concrete arguments, with index being between 0 and 3")
    | _, _ => .error (.Type "index must have concrete arguments, with index being between 0 and 3")

/-- `offset` of `exp.rs`: like `index`, but returns 8 times the table index
as a 64-bit vector. -/
def offset (_ : List Val) (kw : KwArgs) (_ : Memory) : Except ExecError Val := do
  let (level, kws1) ← kwRemove "offset" "level" kw.kw_args
  let (have_va, va, kws2) := kwRemoveOr "va" (.Bits (BVal.from_u64 0)) kws1
  let (have_ipa, ipa, _) := kwRemoveOr "ipa" (.Bits (BVal.from_u64 0)) kws2
  if have_va = have_ipa then
    .error (.Type "offset must have either a va or an ipa argument")
  else
    match (if have_va then va else ipa), level with
    | .Bits bv, .I128 i =>
      if 0 ≤ i ∧ i ≤ 3 then
        .ok (.Bits (BVal.from_u64 (level_index bv.lower_u64 i.toNat * 8)))
      else .error (.Type "index must have concrete arguments, with index being between 0 and 3")
    | _, _ => .error (.Type "index must have concrete arguments, with index being between 0 and 3")

/-- `ttbr` of `exp.rs`: keyword `base`, exactly one of `asid` / `vmid`,
optional `CnP`; the identifier is set as a slice at bit 48 of the base and
`CnP` at bit 0. -/
def ttbr (_ : List Val) (kw : KwArgs) (_ : Memory) : Except ExecError Val := do
  let (base, kws1) ← kwRemove "ttbr" "base" kw.kw_args
  let (have_asid, asid_v, kws2) := kwRemoveOr "asid" (.Bits (BVal.from_u16 0)) kws1
  let (have_vmid, vmid_v, kws3) := kwRemoveOr "vmid" (.Bits (BVal.from_u16 0)) kws2
  let (_, cnp, _) := kwRemoveOr "CnP" (.Bits BVal.bit_zero) kws3
  if have_asid = have_vmid then
    .error (.Type "ttbr must have either a vmid or an asid argument")
  else if have_asid then do
    let bits ← primop.set_slice_internal base (.I128 48) asid_v
    primop.set_slice_internal bits (.I128 0) cnp
  else do
    let bits ← primop.set_slice_internal base (.I128 48) vmid_v
    primop.set_slice_internal bits (.I128 0) cnp

/-- `asid` of `exp.rs` (also registered as `vmid`): takes its last
positional argument, sets it as a slice at bit 48 of a 16-bit zero base,
and zero-extends the result to width 8. -/
def asid (pos_args : List Val) (_ : KwArgs) (_ : Memory) : Except ExecError Val :=
  match pos_args.getLast? with
  | some asid_v => do
    let bits ← primop.set_slice_internal (.Bits (BVal.from_u16 0)) (.I128 48) asid_v
    primop.zero_extend bits (.I128 8)
  | none => .error (.Type "asid(v) takes 1 argument")

/-- `mkdesc` of `exp.rs` (registered as `mkdesc1` and `mkdesc2`): exactly
one of the keywords `table` / `oa`; a table descriptor is the input OR
0b11, a block descriptor the output address OR 0b01 OR the default stage-1
attributes. -/
def mkdesc (_ : List Val) (kw : KwArgs) (_ : Memory) : Except ExecError Val := do
  let (have_table, table, kws1) := kwRemoveOr "table" (.Bits (BVal.from_u64 0)) kw.kw_args
  let (have_oa, oa, _) := kwRemoveOr "oa" (.Bits (BVal.from_u16 0)) kws1
  if have_table = have_oa then
    .error (.Type "mkdesc must have either a table or an oa argument")
  else if have_table then
    primop.or_bits table (.Bits (BVal.from_u64 0b11))
  else do
    let b ← primop.or_bits oa (.Bits (BVal.from_u64 0b01))
    primop.or_bits b (.Bits (BVal.from_u64 s1_default_attrs))

/-- `mkdesc3` of `exp.rs`: required keyword `oa`; the result is `oa` OR
0b11 OR the default stage-1 attributes. -/
def mkdesc3 (_ : List Val) (kw : KwArgs) (_ : Memory) : Except ExecError Val := do
  let (oa, _) ← kwRemove "mkdesc3" "oa" kw.kw_args
  let b ← primop.or_bits oa (.Bits (BVal.from_u64 0b11))
  primop.or_bits b (.Bits (BVal.from_u64 s1_default_attrs))

/-- `page` of `exp.rs`: one positional argument; bits 12..47 of the input
(width 36). -/
def page (args : List Val) (_ : KwArgs) (_ : Memory) : Except ExecError Val :=
  match args with
  | [bits] => primop.subrange_internal bits (.I128 48) (.I128 12)
  | _ => .error (.Type "page must have 1 argument")

/-- `extz` of `exp.rs`: two positional arguments, zero extension. -/
def extz (args : List Val) (_ : KwArgs) (_ : Memory) : Except ExecError Val :=
  match args with
  | [bits, len] => primop.zero_extend bits len
  | _ => .error (.Type "extz must have 2 arguments")

/-- `exts` of `exp.rs`: two positional arguments, sign extension. -/
def exts (args : List Val) (_ : KwArgs) (_ : Memory) : Except ExecError Val :=
  match args with
  | [bits, len] => primop.sign_extend bits len
  | _ => .error (.Type "exts must have 2 arguments")

/-- The signature of a litmus primitive (`LitmusFn` of `exp.rs`, with the
solver collaborator absorbed into the concrete primitive operations). -/
def LitmusFn : Type := List Val → KwArgs → Memory → Except ExecError Val

/-- `litmus_primops` of `exp.rs`: the fixed dispatch table from primitive
name to primitive function (`vmid` maps to `asid`, and `mkdesc1` and
`mkdesc2` both map to `mkdesc`). -/
def litmus_primops (f : String) : Option LitmusFn :=
  match f with
  | "pte0" => some pte0
  | "pte1" => some pte1
  | "pte2" => some pte2
  | "pte3" => some pte3
  | "desc0" => some desc0
  | "desc1" => some desc1
  | "desc2" => some desc2
  | "desc3" => some desc3
  | "pa" => some pa
  | "page" => some page
  | "extz" => some extz
  | "exts" => some exts
  | "ttbr" => some ttbr
  | "asid" => some asid
  | "vmid" => some asid
  | "mkdesc1" => some mkdesc
  | "mkdesc2" => some mkdesc
  | "mkdesc3" => some mkdesc3
  | "bvand" => some bvand
  | "bvor" => some bvor
  | "bvxor" => some bvxor
  | "bvlshr" => some bvlshr
  | "bvshl" => some bvshl
  | "index" => some index
  | "offset" => some offset
  | _ => none

/-- `Partial<A, B>` of `exp.rs`: either a residual expression or an
evaluated value. -/
inductive Partial (A : Type) where
  | Unevaluated : Exp A → Partial A
  | Evaluated : Val → Partial A

/-- `Partial::into_exp` of `exp.rs`: a residual passes through; an
evaluated bit-vector, boolean or integer becomes the corresponding literal
(`as u64` wrapping embedded as `% 2^64`); any other evaluated value is a
`Type` error. -/
def Partial.into_exp {A : Type} : Partial A → Except ExecError (Exp A)
  | .Unevaluated exp => .ok exp
  | .Evaluated val =>
    match val with
    | .Bits bv => .ok (.Bits64 bv.lower_u64 bv.len)
    | .Bool true => .ok .True
    | .Bool false => .ok .False
    | .I128 n => .ok (.Nat (n % (2 ^ 64 : Int)).toNat)
    | _ => .error (.Type "Cannot partially evaluate")

/-- `Partial::unwrap` of `exp.rs` panics on a residual; the embedding
returns `Val.Unit` there, and every call site is guarded by
`is_evaluated`. -/
def Partial.unwrapD {A : Type} : Partial A → Val
  | .Unevaluated _ => .Unit
  | .Evaluated val => val

/-- `Partial::is_evaluated` of `exp.rs`. -/
def Partial.is_evaluated {A : Type} : Partial A → Bool
  | .Unevaluated _ => false
  | .Evaluated _ => true

/-- Lookup in an association list, embedding `HashMap::get`. -/
def assocLookup (m : List (String × Nat)) (k : String) : Option Nat :=
  match m with
  | [] => none
  | (k2, v) :: rest => if k2 = k then some v else assocLookup rest k

/-- `eval_loc` of `exp.rs`: rewrite a location's address name through the
physical-address table; a name absent from the table is rewritten to
physical address 0 (the source's FIXME placeholder); registers pass
through. -/
def eval_loc (loc : Loc String) (physical_addrs : List (String × Nat)) : Loc Nat :=
  match loc with
  | .LastWriteTo address bytes =>
    match assocLookup physical_addrs address with
    | some pa2 => .LastWriteTo pa2 bytes
    | none => .LastWriteTo 0 bytes
  | .Register reg thread_id => .Register reg thread_id

/-- Binary-digit value of a character (the source's `from_str_radix`
panics on a non-digit; the embedding is meaningful on digit strings). -/
def binDigit (c : Char) : Nat := if c = '1' then 1 else 0

/-- Parse a binary literal string, embedding `u64::from_str_radix(s, 2)`. -/
def binToNat (s : String) : Nat :=
  s.foldl (fun acc c => 2 * acc + binDigit c) 0

/-- Hexadecimal-digit value of a character. -/
def hexDigit (c : Char) : Nat :=
  if '0' ≤ c ∧ c ≤ '9' then c.toNat - '0'.toNat
  else if 'a' ≤ c ∧ c ≤ 'f' then c.toNat - 'a'.toNat + 10
  else if 'A' ≤ c ∧ c ≤ 'F' then c.toNat - 'A'.toNat + 10
  else 0

/-- Parse a hexadecimal literal string, embedding
`u64::from_str_radix(s, 16)`. -/
def hexToNat (s : String) : Nat :=
  s.foldl (fun acc c => 16 * acc + hexDigit c) 0

/-- The label-resolution collaborator (spec section 6):
`label_from_objdump(label, objdump)` scans the disassembled text; the
embedding abstracts the fixed objdump text and the scan as one function
from label to optional address. -/
def LabelFn : Type := String → Option Nat

/-- Residualise a list of already-computed argument results, left to
right, propagating the first error (the source's
`args.drain(..).map(into_exp).collect`). -/
def residualiseArgs : List (Partial Nat) → Except ExecError (List (Exp Nat))
  | [] => .ok []
  | p :: ps => do
    let e ← p.into_exp
    let rest ← residualiseArgs ps
    .ok (e :: rest)

/-- Residualise a list of already-computed keyword-argument results. -/
def residualiseKws : List (String × Partial Nat) →
    Except ExecError (List (String × Exp Nat))
  | [] => .ok []
  | (k, p) :: ps => do
    let e ← p.into_exp
    let rest ← residualiseKws ps
    .ok ((k, e) :: rest)

mutual

/-- `partial_eval` of `exp.rs`: the recursive two-valued evaluator.
Literals evaluate immediately; `Loc`/`Label` consult the symbol tables;
`App` evaluates all arguments and either invokes the named primitive (all
arguments evaluated) or rebuilds a residual; `EqLoc`, `And`, `Or`, `Not`
and `Implies` always residualise. -/
def partial_eval (memory : Memory) (addrs pas : List (String × Nat))
    (labelf : LabelFn) : Exp String → Except ExecError (Partial Nat)
  | .EqLoc loc exp => do
    let p ← partial_eval memory addrs pas labelf exp
    let e ← p.into_exp
    .ok (.Unevaluated (.EqLoc (eval_loc loc pas) e))
  | .Loc addr =>
    match assocLookup addrs addr with
    | some bits => .ok (.Evaluated (.Bits (BVal.from_u64 bits)))
    | none => .error (.Type ("No address " ++ addr ++ " found"))
  | .Label label =>
    match labelf label with
    | some addr => .ok (.Evaluated (.Bits (BVal.from_u64 addr)))
    | none => .error (.Type ("No label " ++ label ++ " found"))
  | .True => .ok (.Evaluated (.Bool true))
  | .False => .ok (.Evaluated (.Bool false))
  | .Bits64 bits len => .ok (.Evaluated (.Bits (BVal.new bits len)))
  | .Nat n => .ok (.Evaluated (.I128 n))
  | .Bin bin =>
    if bin.length ≤ 64 then
      .ok (.Evaluated (.Bits (BVal.new (binToNat bin) bin.length)))
    else .error .Unimplemented
  | .Hex hex =>
    if hex.length ≤ 16 then
      .ok (.Evaluated (.Bits (BVal.new (hexToNat hex) (hex.length * 4))))
    else .error .Unimplemented
  | .App f args kw_args => do
    let pargs ← partial_eval_args memory addrs pas labelf args
    let pkws ← partial_eval_kws memory addrs pas labelf kw_args
    if pargs.all Partial.is_evaluated && pkws.all (fun kv => kv.2.is_evaluated) then
      match litmus_primops f with
      | some fn => do
        let v ← fn (pargs.map Partial.unwrapD)
          ⟨pkws.map (fun kv => (kv.1, kv.2.unwrapD))⟩ memory
        .ok (.Evaluated v)
      | none => .error (.Type ("Unknown function " ++ f))
    else do
      let eargs ← residualiseArgs pargs
      let ekws ← residualiseKws pkws
      .ok (.Unevaluated (.App f eargs ekws))
  | .And exps => do
    let es ← partial_eval_resid memory addrs pas labelf exps
    .ok (.Unevaluated (.And es))
  | .Or exps => do
    let es ← partial_eval_resid memory addrs pas labelf exps
    .ok (.Unevaluated (.Or es))
  | .Implies exp1 exp2 => do
    let p1 ← partial_eval memory addrs pas labelf exp1
    let e1 ← p1.into_exp
    let p2 ← partial_eval memory addrs pas labelf exp2
    let e2 ← p2.into_exp
    .ok (.Unevaluated (.Implies e1 e2))
  | .Not exp => do
    let p ← partial_eval memory addrs pas labelf exp
    let e ← p.into_exp
    .ok (.Unevaluated (.Not e))

/-- Partially evaluate each positional argument of an `App`, left to
right, propagating the first error. -/
def partial_eval_args (memory : Memory) (addrs pas : List (String × Nat))
    (labelf : LabelFn) : List (Exp String) → Except ExecError (List (Partial Nat))
  | [] => .ok []
  | e :: es => do
    let p ← partial_eval memory addrs pas labelf e
    let rest ← partial_eval_args memory addrs pas labelf es
    .ok (p :: rest)

/-- Partially evaluate each keyword argument of an `App`. -/
def partial_eval_kws (memory : Memory) (addrs pas : List (String × Nat))
    (labelf : LabelFn) : List (String × Exp String) →
    Except ExecError (List (String × Partial Nat))
  | [] => .ok []
  | (k, e) :: es => do
    let p ← partial_eval memory addrs pas labelf e
    let rest ← partial_eval_kws memory addrs pas labelf es
    .ok ((k, p) :: rest)

/-- Partially evaluate each element of an `And`/`Or` and immediately
residualise it, as the source does per element. -/
def partial_eval_resid (memory : Memory) (addrs pas : List (String × Nat))
    (labelf : LabelFn) : List (Exp String) → Except ExecError (List (Exp Nat))
  | [] => .ok []
  | e :: es => do
    let p ← partial_eval memory addrs pas labelf e
    let e2 ← p.into_exp
    let rest ← partial_eval_resid memory addrs pas labelf es
    .ok (e2 :: rest)

end

/-- `eval` of `exp.rs`: full evaluation wraps partial evaluation with an
empty physical-address map and turns a residual into the `Unimplemented`
error. -/
def eval (memory : Memory) (addrs : List (String × Nat)) (labelf : LabelFn)
    (exp : Exp String) : Except ExecError Val :=
  match partial_eval memory addrs [] labelf exp with
  | .ok (.Evaluated val) => .ok val
  | .ok (.Unevaluated _) => .error .Unimplemented
  | .error e => .error e

/-- A memory in which every read fails, for concrete instances that do
not touch memory. -/
def mem0 : Memory := fun _ _ => .error (.BadRead "unmapped")

/-- A memory in which every 8-byte read yields the 64-bit zero
descriptor. -/
def memZero : Memory := fun _ _ => .ok (.Bits (BVal.from_u64 0))

/-- The concrete four-level table image of the spec's walk scenario:
descriptor `0x2003` at `0x1000`, `0x3003` at `0x2000`, `0x4003` at
`0x3000`, and `0x5000_0000_0000_0040` at `0x4000`. -/
def memScenario : Memory := fun addr bytes =>
  if bytes = 8 then
    if addr = 0x1000 then .ok (.Bits (BVal.from_u64 0x2003))
    else if addr = 0x2000 then .ok (.Bits (BVal.from_u64 0x3003))
    else if addr = 0x3000 then .ok (.Bits (BVal.from_u64 0x4003))
    else if addr = 0x4000 then .ok (.Bits (BVal.from_u64 0x5000000000000040))
    else .error (.BadRead "unmapped")
  else .error (.BadRead "bad width")

/-- A label resolver that knows no labels, for concrete instances. -/
def lf0 : LabelFn := fun _ => none

/-- Whether the root node of an expression is one of the five
always-residualising connectives `EqLoc`, `And`, `Or`, `Not`,
`Implies`. -/
def is_connective {A : Type} : Exp A → Bool
  | .EqLoc _ _ => true
  | .And _ => true
  | .Or _ => true
  | .Not _ => true
  | .Implies _ _ => true
  | _ => false

/-- Whether an evaluated value can be residualised back into a literal
expression by `Partial::into_exp`. -/
def residualisable : Val → Bool
  | .Bits _ => true
  | .Bool _ => true
  | .I128 _ => true
  | _ => false

/-! ## Shared lemmas -/

lemma ok_bind {e a b : Type} (x : a) (f : a → Except e b) :
    (Except.ok x >>= f) = f x := rfl

lemma error_bind {e a b : Type} (err : e) (f : a → Except e b) :
    ((Except.error err : Except e a) >>= f) = .error err := rfl

lemma partial_eval_connective_not_evaluated (memory : Memory)
    (addrs pas : List (String × Nat)) (labelf : LabelFn) (e : Exp String)
    (hc : is_connective e = true) (v : Val) :
    partial_eval memory addrs pas labelf e ≠ .ok (.Evaluated v) := by
  cases e
  case EqLoc loc sub =>
    intro h
    simp only [partial_eval] at h
    cases hp : partial_eval memory addrs pas labelf sub with
    | error err => rw [hp] at h; simp only [error_bind] at h; exact Except.noConfusion h
    | ok p =>
      rw [hp] at h; simp only [ok_bind] at h
      cases hi : p.into_exp with
      | error err => rw [hi] at h; simp only [error_bind] at h; exact Except.noConfusion h
      | ok e2 => rw [hi] at h; simp only [ok_bind] at h; simp at h
  case And es =>
    intro h
    simp only [partial_eval] at h
    cases hr : partial_eval_resid memory addrs pas labelf es with
    | error err => rw [hr] at h; simp only [error_bind] at h; exact Except.noConfusion h
    | ok es2 => rw [hr] at h; simp only [ok_bind] at h; simp at h
  case Or es =>
    intro h
    simp only [partial_eval] at h
    cases hr : partial_eval_resid memory addrs pas labelf es with
    | error err => rw [hr] at h; simp only [error_bind] at h; exact Except.noConfusion h
    | ok es2 => rw [hr] at h; simp only [ok_bind] at h; simp at h
  case Not sub =>
    intro h
    simp only [partial_eval] at h
    cases hp : partial_eval memory addrs pas labelf sub with
    | error err => rw [hp] at h; simp only [error_bind] at h; exact Except.noConfusion h
    | ok p =>
      rw [hp] at h; simp only [ok_bind] at h
      cases hi : p.into_exp with
      | error err => rw [hi] at h; simp only [error_bind] at h; exact Except.noConfusion h
      | ok e2 => rw [hi] at h; simp only [ok_bind] at h; simp at h
  case Implies e1 e2 =>
    intro h
    simp only [partial_eval] at h
    cases hp : partial_eval memory addrs pas labelf e1 with
    | error err => rw [hp] at h; simp only [error_bind] at h; exact Except.noConfusion h
    | ok p =>
      rw [hp] at h; simp only [ok_bind] at h
      cases hi : p.into_exp with
      | error err => rw [hi] at h; simp only [error_bind] at h; exact Except.noConfusion h
      | ok e3 =>
        rw [hi] at h; simp only [ok_bind] at h
        cases hp2 : partial_eval memory addrs pas labelf e2 with
        | error err => rw [hp2] at h; simp only [error_bind] at h; exact Except.noConfusion h
        | ok p2 =>
          rw [hp2] at h; simp only [ok_bind] at h
          cases hi2 : p2.into_exp with
          | error err => rw [hi2] at h; simp only [error_bind] at h; exact Except.noConfusion h
          | ok e4 => rw [hi2] at h; simp only [ok_bind] at h; simp at h
  all_goals simp [is_connective] at hc


/-- If partial evaluation of an expression can never yield an evaluated
value, full evaluation of that expression fails. -/
lemma eval_fails_of_never_evaluated (memory : Memory)
    (addrs : List (String × Nat)) (labelf : LabelFn) (e : Exp String)
    (h : ∀ v, partial_eval memory addrs [] labelf e ≠ .ok (.Evaluated v)) :
    ∃ err, eval memory addrs labelf e = .error err := by
  rw [eval]
  cases hp : partial_eval memory addrs [] labelf e with
  | error err => exact ⟨err, rfl⟩
  | ok p =>
    cases p with
    | Unevaluated r => exact ⟨.Unimplemented, rfl⟩
    | Evaluated v => exact absurd hp (h v)

/-! ## Claim theorems -/

lemma land_paMask_mod_two_pow_twelve (x : Nat) : (x &&& paMask) % 2 ^ 12 = 0 := by
  rw [← Nat.and_pow_two_sub_one_eq_mod, Nat.and_assoc]
  have h2 : paMask &&& 2 ^ 12 - 1 = 0 := by decide
  rw [h2, Nat.and_zero]

lemma add_eq_lor_of_mod_eq_zero {a b n : Nat} (ha : a % 2 ^ n = 0) (hb : b < 2 ^ n) :
    a + b = a ||| b := by
  have hd : a = 2 ^ n * (a / 2 ^ n) := by
    conv_lhs => rw [← Nat.div_add_mod a (2 ^ n)]
    rw [ha, Nat.add_zero]
  rw [hd]
  exact Nat.mul_add_lt_is_or hb _

/-- C1: for concrete virtual address and table root, with every descriptor
read returning a concrete 64-bit vector, the walk computes each next
descriptor address as `(desc_k & !0b11) + level_index(k+1) * 8` (in `u64`
arithmetic) and the final physical address as
`(desc_3 & mask(12..48)) + page_offset(va)`; when the two operands of the
final combination do not overlap, `pa` equals
`(desc_3 & mask(12..48)) | (va & 0xFFF)`. -/
theorem walk_next_pte_and_pa (va_bv table_bv : BVal) (memory : Memory) (w : TranslationTableWalk)
    (h : translation_table_walk [.Bits va_bv, .Bits table_bv] memory = .ok w) :
    w.l1pte = ((w.l0desc &&& u64_not 0b11) + level_index va_bv.lower_u64 1 * 8) % 2 ^ 64 ∧
    w.l2pte = ((w.l1desc &&& u64_not 0b11) + level_index va_bv.lower_u64 2 * 8) % 2 ^ 64 ∧
    w.l3pte = ((w.l2desc &&& u64_not 0b11) + level_index va_bv.lower_u64 3 * 8) % 2 ^ 64 ∧
    w.pa = (w.l3desc &&& paMask) + page_offset va_bv.lower_u64 ∧
    ((w.l3desc &&& paMask) &&& (va_bv.lower_u64 &&& 0xFFF) = 0 →
      w.pa = (w.l3desc &&& paMask) ||| (va_bv.lower_u64 &&& 0xFFF)) := by
  simp only [translation_table_walk] at h
  split at h
  · exact absurd h (by simp)
  next d0 h0 =>
  split at h
  · exact absurd h (by simp)
  next d1 h1 =>
  split at h
  · exact absurd h (by simp)
  next d2 h2 =>
  split at h
  · exact absurd h (by simp)
  next d3 h3 =>
  injection h with h
  subst h
  dsimp only
  have hp : page_offset va_bv.lower_u64 < 2 ^ 12 := Nat.mod_lt _ (by norm_num)
  have hm : d3 &&& paMask ≤ paMask := Nat.and_le_right
  have hmask : paMask = 0xFFFFFFFFF000 := by decide
  have hlt : (d3 &&& paMask) + page_offset va_bv.lower_u64 < 2 ^ 64 := by
    calc (d3 &&& paMask) + page_offset va_bv.lower_u64
        < paMask + 2 ^ 12 := Nat.add_lt_add_of_le_of_lt hm hp
      _ < 2 ^ 64 := by rw [hmask]; norm_num
  have hmod : ((d3 &&& paMask) + page_offset va_bv.lower_u64) % 2 ^ 64 =
      (d3 &&& paMask) + page_offset va_bv.lower_u64 := Nat.mod_eq_of_lt hlt
  refine ⟨rfl, rfl, rfl, hmod, ?_⟩
  intro _
  rw [hmod, add_eq_lor_of_mod_eq_zero (land_paMask_mod_two_pow_twelve d3) hp]
  have hoff : page_offset va_bv.lower_u64 = va_bv.lower_u64 &&& 0xFFF := by
    rw [page_offset]
    have h12 : (0xFFF : Nat) = 2 ^ 12 - 1 := by norm_num
    rw [h12, Nat.and_pow_two_sub_one_eq_mod]
  rw [hoff]


/-- Witness for C1 at the all-zero-descriptor memory. -/
theorem walk_next_pte_and_pa_witness :
    (⟨0x1000, 0, 0, 0, 0, 0, 0, 0, 0⟩ : TranslationTableWalk).pa =
      (((⟨0x1000, 0, 0, 0, 0, 0, 0, 0, 0⟩ : TranslationTableWalk).l3desc &&& paMask) |||
        ((BVal.from_u64 0).lower_u64 &&& 0xFFF)) :=
  (walk_next_pte_and_pa (BVal.from_u64 0) (BVal.from_u64 0x1000) memZero
    ⟨0x1000, 0, 0, 0, 0, 0, 0, 0, 0⟩ rfl).2.2.2.2 (by decide)

/-- C2: partially evaluating an expression whose root is `EqLoc`, `And`,
`Or`, `Not` or `Implies` never returns an `Evaluated` value. -/
theorem connectives_never_evaluate (memory : Memory)
    (addrs pas : List (String × Nat)) (labelf : LabelFn) (e : Exp String)
    (hc : is_connective e = true) (v : Val) :
    partial_eval memory addrs pas labelf e ≠ .ok (.Evaluated v) :=
  partial_eval_connective_not_evaluated memory addrs pas labelf e hc v

/-- Witness for C2: `Not True`, whose only subterm is a literal, still
does not evaluate. -/
theorem connectives_never_evaluate_witness :
    is_connective (Exp.Not .True : Exp String) = true ∧
    partial_eval mem0 [] [] lf0 (.Not .True) ≠ .ok (.Evaluated (.Bool true)) :=
  ⟨rfl, connectives_never_evaluate mem0 [] [] lf0 (.Not .True) rfl (.Bool true)⟩

/-- C6 counterexample: on the spec's scenario memory the walk of virtual
address 0 from root `0x1000` yields `pa = 0`, not
`0x5000_0000_0000_0000`. -/
theorem walk_scenario_counterexample :
    (translation_table_walk [.Bits (BVal.from_u64 0), .Bits (BVal.from_u64 0x1000)]
        memScenario).map (fun w => w.pa) = .ok 0 ∧
    (0 : Nat) ≠ 0x5000000000000000 :=
  ⟨rfl, by norm_num⟩

/-- C6 amended: the walk of virtual address 0 from root `0x1000` over the
scenario memory reads exactly the four stated descriptors, but the bits of
the final descriptor `0x5000_0000_0000_0040` all lie outside the output
field `mask(12..48)`, so the final physical address is 0. -/
theorem walk_scenario_descriptors_and_pa :
    translation_table_walk [.Bits (BVal.from_u64 0), .Bits (BVal.from_u64 0x1000)]
      memScenario =
    .ok ⟨0x1000, 0x2003, 0x2000, 0x3003, 0x3000, 0x4003, 0x4000,
      0x5000000000000040, 0⟩ := rfl

lemma partial_eval_args_forward (memory : Memory) (addrs pas : List (String × Nat))
    (labelf : LabelFn) :
    ∀ (es : List (Exp String)) (ps : List (Partial Nat)),
      partial_eval_args memory addrs pas labelf es = .ok ps →
      ∀ e ∈ es, ∃ p ∈ ps, partial_eval memory addrs pas labelf e = .ok p := by
  intro es
  induction es with
  | nil => intro ps _ e he; exact absurd he (List.not_mem_nil e)
  | cons hd tl ih =>
    intro ps hps e he
    simp only [partial_eval_args] at hps
    cases hp : partial_eval memory addrs pas labelf hd with
    | error err => rw [hp] at hps; simp only [error_bind] at hps; exact Except.noConfusion hps
    | ok p =>
      rw [hp] at hps; simp only [ok_bind] at hps
      cases hr : partial_eval_args memory addrs pas labelf tl with
      | error err => rw [hr] at hps; simp only [error_bind] at hps; exact Except.noConfusion hps
      | ok rest =>
        rw [hr] at hps; simp only [ok_bind] at hps
        injection hps with hps
        subst hps
        rcases List.mem_cons.mp he with rfl | htl
        · exact ⟨p, List.mem_cons_self _ _, hp⟩
        · obtain ⟨p2, hp2mem, hp2⟩ := ih rest hr e htl
          exact ⟨p2, List.mem_cons_of_mem _ hp2mem, hp2⟩

lemma app_with_connective_arg_not_evaluated (memory : Memory)
    (addrs pas : List (String × Nat)) (labelf : LabelFn)
    (f : String) (args : List (Exp String)) (kws : List (String × Exp String))
    (e : Exp String) (he : e ∈ args) (hc : is_connective e = true) (v : Val) :
    partial_eval memory addrs pas labelf (.App f args kws) ≠ .ok (.Evaluated v) := by
  intro h
  simp only [partial_eval] at h
  cases hargs : partial_eval_args memory addrs pas labelf args with
  | error err => rw [hargs] at h; simp only [error_bind] at h; exact Except.noConfusion h
  | ok ps =>
    rw [hargs] at h; simp only [ok_bind] at h
    cases hkws : partial_eval_kws memory addrs pas labelf kws with
    | error err => rw [hkws] at h; simp only [error_bind] at h; exact Except.noConfusion h
    | ok pk =>
      rw [hkws] at h; simp only [ok_bind] at h
      obtain ⟨p, hpmem, hpe⟩ :=
        partial_eval_args_forward memory addrs pas labelf args ps hargs e he
      have hnev : p.is_evaluated = false := by
        cases p with
        | Unevaluated r => rfl
        | Evaluated v2 =>
          exact absurd hpe (partial_eval_connective_not_evaluated memory addrs pas labelf e hc v2)
      have hall : ps.all Partial.is_evaluated = false :=
        List.all_eq_false.mpr ⟨p, hpmem, by rw [hnev]; exact Bool.false_ne_true⟩
      rw [hall] at h
      simp only [Bool.false_and, if_false] at h
      cases hr : residualiseArgs ps with
      | error err => rw [hr] at h; simp only [error_bind] at h; exact Except.noConfusion h
      | ok l =>
        rw [hr] at h; simp only [ok_bind] at h
        cases hr2 : residualiseKws pk with
        | error err => rw [hr2] at h; simp only [error_bind] at h; exact Except.noConfusion h
        | ok l2 =>
          rw [hr2] at h; simp only [ok_bind] at h
          simp at h

lemma partial_eval_kws_mem_forward (memory : Memory) (addrs pas : List (String × Nat))
    (labelf : LabelFn) :
    ∀ (es : List (String × Exp String)) (pk : List (String × Partial Nat)),
      partial_eval_kws memory addrs pas labelf es = .ok pk →
      ∀ kv ∈ es, ∃ pr ∈ pk, partial_eval memory addrs pas labelf kv.2 = .ok pr.2 := by
  intro es
  induction es with
  | nil => intro pk _ kv hkv; exact absurd hkv (List.not_mem_nil kv)
  | cons hd tl ih =>
    intro pk hpk kv hkv
    obtain ⟨k, e⟩ := hd
    simp only [partial_eval_kws] at hpk
    cases hp : partial_eval memory addrs pas labelf e with
    | error err => rw [hp] at hpk; simp only [error_bind] at hpk; exact Except.noConfusion hpk
    | ok p =>
      rw [hp] at hpk; simp only [ok_bind] at hpk
      cases hr : partial_eval_kws memory addrs pas labelf tl with
      | error err => rw [hr] at hpk; simp only [error_bind] at hpk; exact Except.noConfusion hpk
      | ok rest =>
        rw [hr] at hpk; simp only [ok_bind] at hpk
        injection hpk with hpk
        subst hpk
        rcases List.mem_cons.mp hkv with rfl | htl
        · exact ⟨(k, p), List.mem_cons_self _ _, hp⟩
        · obtain ⟨pr, hprmem, hpr⟩ := ih rest hr kv htl
          exact ⟨pr, List.mem_cons_of_mem _ hprmem, hpr⟩

lemma app_with_connective_kwarg_not_evaluated (memory : Memory)
    (addrs pas : List (String × Nat)) (labelf : LabelFn)
    (f : String) (args : List (Exp String)) (kws : List (String × Exp String))
    (k : String) (e : Exp String) (he : (k, e) ∈ kws) (hc : is_connective e = true)
    (v : Val) :
    partial_eval memory addrs pas labelf (.App f args kws) ≠ .ok (.Evaluated v) := by
  intro h
  simp only [partial_eval] at h
  cases hargs : partial_eval_args memory addrs pas labelf args with
  | error err => rw [hargs] at h; simp only [error_bind] at h; exact Except.noConfusion h
  | ok ps =>
    rw [hargs] at h; simp only [ok_bind] at h
    cases hkws : partial_eval_kws memory addrs pas labelf kws with
    | error err => rw [hkws] at h; simp only [error_bind] at h; exact Except.noConfusion h
    | ok pk =>
      rw [hkws] at h; simp only [ok_bind] at h
      obtain ⟨pr, hprmem, hpr⟩ :=
        partial_eval_kws_mem_forward memory addrs pas labelf kws pk hkws (k, e) he
      have hnev : pr.2.is_evaluated = false := by
        cases hp2 : pr.2 with
        | Unevaluated r => rfl
        | Evaluated v2 =>
          rw [hp2] at hpr
          exact absurd hpr
            (partial_eval_connective_not_evaluated memory addrs pas labelf e hc v2)
      have hall : (pk.all fun kv => kv.2.is_evaluated) = false :=
        List.all_eq_false.mpr ⟨pr, hprmem, by rw [hnev]; exact Bool.false_ne_true⟩
      rw [hall] at h
      simp only [Bool.and_false, if_false] at h
      cases hr : residualiseArgs ps with
      | error err => rw [hr] at h; simp only [error_bind] at h; exact Except.noConfusion h
      | ok l =>
        rw [hr] at h; simp only [ok_bind] at h
        cases hr2 : residualiseKws pk with
        | error err => rw [hr2] at h; simp only [error_bind] at h; exact Except.noConfusion h
        | ok l2 =>
          rw [hr2] at h; simp only [ok_bind] at h
          simp at h

/-- C3 (amended): `eval` is `partial_eval` with the empty physical-address
map: an `Evaluated` result is returned as the value, an `Unevaluated`
result becomes the `Unimplemented` error, and a partial-evaluation error
propagates unchanged; an expression whose root, or one of whose `App`
arguments (positional or keyword), is one of the connectives `EqLoc`,
`And`, `Or`, `Not`, `Implies` always makes `eval` fail (with
`Unimplemented` exactly when the partial evaluation itself succeeds). -/
theorem eval_wraps_partial_eval (memory : Memory) (addrs : List (String × Nat))
    (labelf : LabelFn) :
    (∀ e v, partial_eval memory addrs [] labelf e = .ok (.Evaluated v) →
      eval memory addrs labelf e = .ok v) ∧
    (∀ e r, partial_eval memory addrs [] labelf e = .ok (.Unevaluated r) →
      eval memory addrs labelf e = .error .Unimplemented) ∧
    (∀ e err, partial_eval memory addrs [] labelf e = .error err →
      eval memory addrs labelf e = .error err) ∧
    (∀ e, is_connective e = true → ∃ err, eval memory addrs labelf e = .error err) ∧
    (∀ f args kws e, e ∈ args → is_connective e = true →
      ∃ err, eval memory addrs labelf (.App f args kws) = .error err) ∧
    (∀ f args kws k e, (k, e) ∈ kws → is_connective e = true →
      ∃ err, eval memory addrs labelf (.App f args kws) = .error err) := by
  refine ⟨?_, ?_, ?_, ?_, ?_, ?_⟩
  · intro e v h; rw [eval, h]
  · intro e r h; rw [eval, h]
  · intro e err h; rw [eval, h]
  · intro e hc
    exact eval_fails_of_never_evaluated memory addrs labelf e
      (fun v => partial_eval_connective_not_evaluated memory addrs [] labelf e hc v)
  · intro f args kws e he hc
    exact eval_fails_of_never_evaluated memory addrs labelf _
      (fun v => app_with_connective_arg_not_evaluated memory addrs [] labelf f args kws e he hc v)
  · intro f args kws k e he hc
    exact eval_fails_of_never_evaluated memory addrs labelf _
      (fun v =>
        app_with_connective_kwarg_not_evaluated memory addrs [] labelf f args kws k e he hc v)

/-- Witness for C3 at the literal `Nat 5`. -/
theorem eval_wraps_partial_eval_witness :
    partial_eval mem0 [] [] lf0 (.Nat 5) = .ok (.Evaluated (.I128 5)) ∧
    eval mem0 [] lf0 (.Nat 5) = .ok (.I128 5) :=
  ⟨rfl, (eval_wraps_partial_eval mem0 [] lf0).1 (.Nat 5) (.I128 5) rfl⟩

/-- C3 counterexample: an `And` whose member names a missing address makes
`eval` fail with a `Type` error, not with `Unimplemented` as the claim
states. -/
theorem eval_connective_counterexample :
    eval mem0 [] lf0 (.And [.Loc "x"]) = .error (.Type "No address x found") ∧
    (Except.error (ExecError.Type "No address x found") ≠
      (Except.error .Unimplemented : Except ExecError Val)) :=
  ⟨rfl, by simp⟩

/-- C5 counterexample: the literal `Bits64 2 1` carries a payload wider
than its width; evaluating masks the payload, so the round-trip returns
`Bits64 0 1`, not the original. -/
theorem literal_roundtrip_counterexample :
    (partial_eval mem0 [] [] lf0 (.Bits64 2 1) >>= Partial.into_exp) = .ok (.Bits64 0 1) ∧
    (Exp.Bits64 0 1 : Exp Nat) ≠ .Bits64 2 1 :=
  ⟨rfl, by simp⟩

/-- C5 (amended): evaluating a literal and residualising it returns the
original expression for `True`, `False`, and `Nat n` with `n` a `u64`; for
`Bits64 u w` it returns `Bits64 (u mod 2^w) w`, which is the original
exactly when the payload is already masked to the width (`u < 2^w`,
`w ≤ 64`). -/
theorem literal_roundtrip_masked (memory : Memory)
    (addrs pas : List (String × Nat)) (labelf : LabelFn) :
    (∀ u w, u < 2 ^ w → w ≤ 64 →
      (partial_eval memory addrs pas labelf (.Bits64 u w) >>= Partial.into_exp) =
        .ok (.Bits64 u w)) ∧
    ((partial_eval memory addrs pas labelf .True >>= Partial.into_exp) = .ok .True) ∧
    ((partial_eval memory addrs pas labelf .False >>= Partial.into_exp) = .ok .False) ∧
    (∀ n, n < 2 ^ 64 →
      (partial_eval memory addrs pas labelf (.Nat n) >>= Partial.into_exp) =
        .ok (.Nat n)) := by
  refine ⟨?_, rfl, rfl, ?_⟩
  · intro u w hu hw
    simp only [partial_eval, Partial.into_exp, ok_bind, BVal.new, BVal.lower_u64]
    have h1 : u % 2 ^ w = u := Nat.mod_eq_of_lt hu
    have h2 : u % 2 ^ 64 = u :=
      Nat.mod_eq_of_lt (lt_of_lt_of_le hu (Nat.pow_le_pow_right (by norm_num) hw))
    rw [h1, h2]
  · intro n hn
    simp only [partial_eval, Partial.into_exp, ok_bind]
    have h1 : ((n : Int) % (2 ^ 64 : Int)).toNat = n := by
      rw [Int.emod_eq_of_lt (by positivity) (by exact_mod_cast hn)]
      exact Int.toNat_natCast n
    rw [h1]

/-- Witness for C5 at the masked literal `Bits64 5 4`. -/
theorem literal_roundtrip_masked_witness :
    (5 : Nat) < 2 ^ 4 ∧ (4 : Nat) ≤ 64 ∧
    (partial_eval mem0 [] [] lf0 (.Bits64 5 4) >>= Partial.into_exp) = .ok (.Bits64 5 4) :=
  ⟨by norm_num, by norm_num,
    (literal_roundtrip_masked mem0 [] [] lf0).1 5 4 (by norm_num) (by norm_num)⟩

/-- C8: partially evaluating `EqLoc(loc, sub)` rewrites the location's
address through the physical-address table: a `LastWriteTo` whose name is
in the table is rebound to the mapped physical address, one whose name is
absent is rebound to physical address 0 without any error, and `Register`
locations pass through unchanged. -/
theorem eqloc_rewrites_locations :
    (∀ (pas : List (String × Nat)) (a : String) (bytes pa2 : Nat),
      assocLookup pas a = some pa2 →
      eval_loc (.LastWriteTo a bytes) pas = .LastWriteTo pa2 bytes) ∧
    (∀ (pas : List (String × Nat)) (a : String) (bytes : Nat),
      assocLookup pas a = none →
      eval_loc (.LastWriteTo a bytes) pas = .LastWriteTo 0 bytes) ∧
    (∀ (pas : List (String × Nat)) (reg tid : Nat),
      eval_loc (.Register reg tid) pas = .Register reg tid) ∧
    (∀ (memory : Memory) (addrs pas : List (String × Nat)) (labelf : LabelFn)
      (loc : Loc String) (sub : Exp String) (p : Partial Nat) (e2 : Exp Nat),
      partial_eval memory addrs pas labelf sub = .ok p →
      p.into_exp = .ok e2 →
      partial_eval memory addrs pas labelf (.EqLoc loc sub) =
        .ok (.Unevaluated (.EqLoc (eval_loc loc pas) e2))) := by
  refine ⟨?_, ?_, ?_, ?_⟩
  · intro pas a bytes pa2 h
    simp only [eval_loc, h]
  · intro pas a bytes h
    simp only [eval_loc, h]
  · intro pas reg tid
    rfl
  · intro memory addrs pas labelf loc sub p e2 hp he
    simp only [partial_eval, hp, ok_bind, he]

/-- Witness for C8 at a table that does not know the name. -/
theorem eqloc_rewrites_locations_witness :
    assocLookup [("y", 3)] "x" = none ∧
    eval_loc (.LastWriteTo "x" 4) [("y", 3)] = .LastWriteTo 0 4 :=
  ⟨rfl, eqloc_rewrites_locations.2.1 [("y", 3)] "x" 4 rfl⟩

/-- C9: `into_exp` on an evaluated bit-vector always succeeds and returns
`Bits64 (lower 64 bits) (width)`; a vector wider than 64 bits is silently
truncated while the recorded width stays above 64, violating the
`Bits64.w` less-or-equal 64 invariant; an evaluated `I128` becomes `Nat (n as u64)`,
wrapping negative integers. -/
theorem into_exp_truncates :
    (∀ bv : BVal, (Partial.into_exp (A := Nat) (.Evaluated (.Bits bv))) =
      .ok (.Bits64 (bv.bits % 2 ^ 64) bv.len)) ∧
    (∀ n : Int, (Partial.into_exp (A := Nat) (.Evaluated (.I128 n))) =
      .ok (.Nat (n % (2 ^ 64 : Int)).toNat)) ∧
    (Partial.into_exp (A := Nat) (.Evaluated (.Bits ⟨72, 2 ^ 70 + 5⟩)) =
      .ok (.Bits64 5 72)) ∧
    ¬(72 : Nat) ≤ 64 ∧
    (2 ^ 70 + 5 : Nat) ≠ 5 ∧
    (Partial.into_exp (A := Nat) (.Evaluated (.I128 (-1))) = .ok (.Nat (2 ^ 64 - 1))) := by
  refine ⟨fun bv => rfl, fun n => rfl, ?_, by norm_num, by norm_num, ?_⟩
  · simp only [Partial.into_exp, BVal.lower_u64]
    norm_num
  · simp only [Partial.into_exp]
    norm_num
    rfl

lemma kwRemoveOr_flag (kw : String) (d : Val) :
    ∀ kws : List (String × Val), (kwRemoveOr kw d kws).1 = hasKey kws kw := by
  intro kws
  induction kws with
  | nil => rfl
  | cons hd tl ih =>
    simp only [kwRemoveOr, hasKey, List.any_cons]
    by_cases h : hd.1 = kw
    · rw [if_pos h]
      simp [h]
    · rw [if_neg h]
      simp only [hasKey] at ih
      simp [h, ih]

lemma kwRemoveOr_hasKey_rest (kw : String) (d : Val) (k2 : String) (hne : k2 ≠ kw) :
    ∀ kws : List (String × Val), hasKey (kwRemoveOr kw d kws).2.2 k2 = hasKey kws k2 := by
  intro kws
  induction kws with
  | nil => rfl
  | cons hd tl ih =>
    simp only [kwRemoveOr]
    by_cases h : hd.1 = kw
    · rw [if_pos h]
      simp only [hasKey, List.any_cons]
      have hdk : decide (hd.1 = k2) = false := by
        apply decide_eq_false
        intro hk2
        exact hne (by rw [← hk2]; exact h)
      rw [hdk, Bool.false_or]
    · rw [if_neg h]
      simp only [hasKey, List.any_cons]
      simp only [hasKey] at ih
      rw [ih]

lemma kwRemove_error_msg (caller kw : String) :
    ∀ (kws : List (String × Val)) (err : ExecError),
      kwRemove caller kw kws = .error err →
      err = .Type (caller ++ " must have a " ++ kw ++ " keyword argument") := by
  intro kws
  induction kws with
  | nil => intro err h; simp only [kwRemove] at h; injection h with h; exact h.symm
  | cons hd tl ih =>
    intro err h
    simp only [kwRemove] at h
    by_cases hk : hd.1 = kw
    · rw [if_pos hk] at h; exact Except.noConfusion h
    · rw [if_neg hk] at h
      cases hr : kwRemove caller kw tl with
      | error err2 =>
        rw [hr] at h; simp only [error_bind] at h
        injection h with h
        subst h
        exact ih err2 hr
      | ok pr => rw [hr] at h; simp only [ok_bind] at h; exact Except.noConfusion h

lemma kwRemove_hasKey_rest (caller kw : String) (k2 : String) (hne : k2 ≠ kw) :
    ∀ (kws : List (String × Val)) (v : Val) (rest : List (String × Val)),
      kwRemove caller kw kws = .ok (v, rest) →
      hasKey rest k2 = hasKey kws k2 := by
  intro kws
  induction kws with
  | nil => intro v rest h; exact Except.noConfusion h
  | cons hd tl ih =>
    intro v rest h
    simp only [kwRemove] at h
    by_cases hk : hd.1 = kw
    · rw [if_pos hk] at h
      injection h with h
      injection h with h1 h2
      subst h2
      simp only [hasKey, List.any_cons]
      have hdk : decide (hd.1 = k2) = false := by
        apply decide_eq_false
        intro hk2
        exact hne (by rw [← hk2]; exact hk)
      rw [hdk, Bool.false_or]
    · rw [if_neg hk] at h
      cases hr : kwRemove caller kw tl with
      | error err => rw [hr] at h; simp only [error_bind] at h; exact Except.noConfusion h
      | ok pr =>
        rw [hr] at h; simp only [ok_bind] at h
        injection h with h
        injection h with h1 h2
        subst h1
        subst h2
        simp only [hasKey, List.any_cons]
        have htl := ih pr.1 pr.2 (by rw [hr])
        simp only [hasKey] at htl
        rw [htl]



lemma index_both_or_neither (args : List Val) (kws : List (String × Val)) (mem : Memory)
    (h : hasKey kws "va" = hasKey kws "ipa") :
    ∃ m, index args ⟨kws⟩ mem = .error (.Type m) := by
  cases hlv : kwRemove "index" "level" kws with
  | error err =>
    refine ⟨"index must have a level keyword argument", ?_⟩
    have hmsg := kwRemove_error_msg "index" "level" kws err hlv
    simp only [index, hlv, error_bind]
    rw [hmsg]
    rfl
  | ok pr =>
    obtain ⟨level, kws1⟩ := pr
    rcases hkv : kwRemoveOr "va" (.Bits (BVal.from_u64 0)) kws1 with ⟨b1, v1, rest1⟩
    rcases hkv2 : kwRemoveOr "ipa" (.Bits (BVal.from_u64 0)) rest1 with ⟨b2, v2, rest2⟩
    have hb1 : b1 = hasKey kws1 "va" := by rw [← kwRemoveOr_flag "va" (.Bits (BVal.from_u64 0)) kws1, hkv]
    have hb2 : b2 = hasKey rest1 "ipa" := by rw [← kwRemoveOr_flag "ipa" (.Bits (BVal.from_u64 0)) rest1, hkv2]
    have hrest : hasKey rest1 "ipa" = hasKey kws1 "ipa" := by
      have := kwRemoveOr_hasKey_rest "va" (.Bits (BVal.from_u64 0)) "ipa" (by decide) kws1
      rw [hkv] at this
      exact this
    have hva : hasKey kws1 "va" = hasKey kws "va" :=
      kwRemove_hasKey_rest "index" "level" "va" (by decide) kws level kws1 hlv
    have hipa : hasKey kws1 "ipa" = hasKey kws "ipa" :=
      kwRemove_hasKey_rest "index" "level" "ipa" (by decide) kws level kws1 hlv
    have heq : b1 = b2 := by rw [hb1, hb2, hrest, hva, hipa, h]
    refine ⟨"index must have either a va or an ipa argument", ?_⟩
    simp only [index, hlv, ok_bind, hkv, hkv2]
    rw [if_pos heq]

lemma index_exactly_one (args : List Val) (kws : List (String × Val)) (mem : Memory)
    (h : hasKey kws "va" ≠ hasKey kws "ipa") :
    index args ⟨kws⟩ mem ≠
      .error (.Type "index must have either a va or an ipa argument") := by
  cases hlv : kwRemove "index" "level" kws with
  | error err =>
    have hmsg := kwRemove_error_msg "index" "level" kws err hlv
    simp only [index, hlv, error_bind, hmsg]
    intro hcontra
    injection hcontra with hcontra
    injection hcontra with hcontra
    exact absurd hcontra (by decide)
  | ok pr =>
    obtain ⟨level, kws1⟩ := pr
    rcases hkv : kwRemoveOr "va" (.Bits (BVal.from_u64 0)) kws1 with ⟨b1, v1, rest1⟩
    rcases hkv2 : kwRemoveOr "ipa" (.Bits (BVal.from_u64 0)) rest1 with ⟨b2, v2, rest2⟩
    have hb1 : b1 = hasKey kws1 "va" := by rw [← kwRemoveOr_flag "va" (.Bits (BVal.from_u64 0)) kws1, hkv]
    have hb2 : b2 = hasKey rest1 "ipa" := by rw [← kwRemoveOr_flag "ipa" (.Bits (BVal.from_u64 0)) rest1, hkv2]
    have hrest : hasKey rest1 "ipa" = hasKey kws1 "ipa" := by
      have := kwRemoveOr_hasKey_rest "va" (.Bits (BVal.from_u64 0)) "ipa" (by decide) kws1
      rw [hkv] at this
      exact this
    have hva : hasKey kws1 "va" = hasKey kws "va" :=
      kwRemove_hasKey_rest "index" "level" "va" (by decide) kws level kws1 hlv
    have hipa : hasKey kws1 "ipa" = hasKey kws "ipa" :=
      kwRemove_hasKey_rest "index" "level" "ipa" (by decide) kws level kws1 hlv
    have hne2 : b1 ≠ b2 := by rw [hb1, hb2, hrest, hva, hipa]; exact h
    simp only [index, hlv, ok_bind, hkv, hkv2]
    rw [if_neg hne2]
    split
    · split
      · intro hcontra; exact Except.noConfusion hcontra
      · intro hcontra
        injection hcontra with hcontra
        injection hcontra with hcontra
        exact absurd hcontra (by decide)
    · intro hcontra
      injection hcontra with hcontra
      injection hcontra with hcontra
      exact absurd hcontra (by decide)



lemma set_slice_error_msg (a b c : Val) (err : ExecError)
    (h : primop.set_slice_internal a b c = .error err) :
    err = .Type "set_slice requires concrete arguments" := by
  cases a <;> cases b <;> cases c <;>
    first
      | (injection h with h; exact h.symm)
      | exact Except.noConfusion h

lemma or_bits_error_msg (a b : Val) (err : ExecError)
    (h : primop.or_bits a b = .error err) :
    err = .Type "or_bits length mismatch" ∨
      err = .Type "or_bits requires concrete bitvectors" := by
  cases a <;> cases b <;>
    first
      | (injection h with h; exact Or.inr h.symm)
      | exact Except.noConfusion h
      | (simp only [primop.or_bits] at h
         split at h
         · exact Except.noConfusion h
         · injection h with h; exact Or.inl h.symm)

lemma offset_both_or_neither (args : List Val) (kws : List (String × Val)) (mem : Memory)
    (h : hasKey kws "va" = hasKey kws "ipa") :
    ∃ m, offset args ⟨kws⟩ mem = .error (.Type m) := by
  cases hlv : kwRemove "offset" "level" kws with
  | error err =>
    refine ⟨"offset must have a level keyword argument", ?_⟩
    have hmsg := kwRemove_error_msg "offset" "level" kws err hlv
    simp only [offset, hlv, error_bind]
    rw [hmsg]
    rfl
  | ok pr =>
    obtain ⟨level, kws1⟩ := pr
    rcases hkv : kwRemoveOr "va" (.Bits (BVal.from_u64 0)) kws1 with ⟨b1, v1, rest1⟩
    rcases hkv2 : kwRemoveOr "ipa" (.Bits (BVal.from_u64 0)) rest1 with ⟨b2, v2, rest2⟩
    have hb1 : b1 = hasKey kws1 "va" := by rw [← kwRemoveOr_flag "va" (.Bits (BVal.from_u64 0)) kws1, hkv]
    have hb2 : b2 = hasKey rest1 "ipa" := by rw [← kwRemoveOr_flag "ipa" (.Bits (BVal.from_u64 0)) rest1, hkv2]
    have hrest : hasKey rest1 "ipa" = hasKey kws1 "ipa" := by
      have := kwRemoveOr_hasKey_rest "va" (.Bits (BVal.from_u64 0)) "ipa" (by decide) kws1
      rw [hkv] at this
      exact this
    have hva : hasKey kws1 "va" = hasKey kws "va" :=
      kwRemove_hasKey_rest "offset" "level" "va" (by decide) kws level kws1 hlv
    have hipa : hasKey kws1 "ipa" = hasKey kws "ipa" :=
      kwRemove_hasKey_rest "offset" "level" "ipa" (by decide) kws level kws1 hlv
    have heq : b1 = b2 := by rw [hb1, hb2, hrest, hva, hipa, h]
    refine ⟨"offset must have either a va or an ipa argument", ?_⟩
    simp only [offset, hlv, ok_bind, hkv, hkv2]
    rw [if_pos heq]

lemma offset_exactly_one (args : List Val) (kws : List (String × Val)) (mem : Memory)
    (h : hasKey kws "va" ≠ hasKey kws "ipa") :
    offset args ⟨kws⟩ mem ≠
      .error (.Type "offset must have either a va or an ipa argument") := by
  cases hlv : kwRemove "offset" "level" kws with
  | error err =>
    have hmsg := kwRemove_error_msg "offset" "level" kws err hlv
    simp only [offset, hlv, error_bind, hmsg]
    intro hcontra
    injection hcontra with hcontra
    injection hcontra with hcontra
    exact absurd hcontra (by decide)
  | ok pr =>
    obtain ⟨level, kws1⟩ := pr
    rcases hkv : kwRemoveOr "va" (.Bits (BVal.from_u64 0)) kws1 with ⟨b1, v1, rest1⟩
    rcases hkv2 : kwRemoveOr "ipa" (.Bits (BVal.from_u64 0)) rest1 with ⟨b2, v2, rest2⟩
    have hb1 : b1 = hasKey kws1 "va" := by rw [← kwRemoveOr_flag "va" (.Bits (BVal.from_u64 0)) kws1, hkv]
    have hb2 : b2 = hasKey rest1 "ipa" := by rw [← kwRemoveOr_flag "ipa" (.Bits (BVal.from_u64 0)) rest1, hkv2]
    have hrest : hasKey rest1 "ipa" = hasKey kws1 "ipa" := by
      have := kwRemoveOr_hasKey_rest "va" (.Bits (BVal.from_u64 0)) "ipa" (by decide) kws1
      rw [hkv] at this
      exact this
    have hva : hasKey kws1 "va" = hasKey kws "va" :=
      kwRemove_hasKey_rest "offset" "level" "va" (by decide) kws level kws1 hlv
    have hipa : hasKey kws1 "ipa" = hasKey kws "ipa" :=
      kwRemove_hasKey_rest "offset" "level" "ipa" (by decide) kws level kws1 hlv
    have hne2 : b1 ≠ b2 := by rw [hb1, hb2, hrest, hva, hipa]; exact h
    simp only [offset, hlv, ok_bind, hkv, hkv2]
    rw [if_neg hne2]
    split
    · split
      · intro hcontra; exact Except.noConfusion hcontra
      · intro hcontra
        injection hcontra with hcontra
        injection hcontra with hcontra
        exact absurd hcontra (by decide)
    · intro hcontra
      injection hcontra with hcontra
      injection hcontra with hcontra
      exact absurd hcontra (by decide)



lemma ttbr_both_or_neither (args : List Val) (kws : List (String × Val)) (mem : Memory)
    (h : hasKey kws "asid" = hasKey kws "vmid") :
    ∃ m, ttbr args ⟨kws⟩ mem = .error (.Type m) := by
  cases hb : kwRemove "ttbr" "base" kws with
  | error err =>
    refine ⟨"ttbr must have a base keyword argument", ?_⟩
    have hmsg := kwRemove_error_msg "ttbr" "base" kws err hb
    simp only [ttbr, hb, error_bind]
    rw [hmsg]
    rfl
  | ok pr =>
    obtain ⟨base, kws1⟩ := pr
    rcases hkv : kwRemoveOr "asid" (.Bits (BVal.from_u16 0)) kws1 with ⟨b1, v1, rest1⟩
    rcases hkv2 : kwRemoveOr "vmid" (.Bits (BVal.from_u16 0)) rest1 with ⟨b2, v2, rest2⟩
    rcases hkv3 : kwRemoveOr "CnP" (.Bits BVal.bit_zero) rest2 with ⟨b3, v3, rest3⟩
    have hb1 : b1 = hasKey kws1 "asid" := by
      rw [← kwRemoveOr_flag "asid" (.Bits (BVal.from_u16 0)) kws1, hkv]
    have hb2 : b2 = hasKey rest1 "vmid" := by
      rw [← kwRemoveOr_flag "vmid" (.Bits (BVal.from_u16 0)) rest1, hkv2]
    have hrest : hasKey rest1 "vmid" = hasKey kws1 "vmid" := by
      have := kwRemoveOr_hasKey_rest "asid" (.Bits (BVal.from_u16 0)) "vmid" (by decide) kws1
      rw [hkv] at this
      exact this
    have hasid : hasKey kws1 "asid" = hasKey kws "asid" :=
      kwRemove_hasKey_rest "ttbr" "base" "asid" (by decide) kws base kws1 hb
    have hvmid : hasKey kws1 "vmid" = hasKey kws "vmid" :=
      kwRemove_hasKey_rest "ttbr" "base" "vmid" (by decide) kws base kws1 hb
    have heq : b1 = b2 := by rw [hb1, hb2, hrest, hasid, hvmid, h]
    refine ⟨"ttbr must have either a vmid or an asid argument", ?_⟩
    simp only [ttbr, hb, ok_bind, hkv, hkv2, hkv3]
    rw [if_pos heq]

lemma ttbr_exactly_one (args : List Val) (kws : List (String × Val)) (mem : Memory)
    (h : hasKey kws "asid" ≠ hasKey kws "vmid") :
    ttbr args ⟨kws⟩ mem ≠
      .error (.Type "ttbr must have either a vmid or an asid argument") := by
  cases hb : kwRemove "ttbr" "base" kws with
  | error err =>
    have hmsg := kwRemove_error_msg "ttbr" "base" kws err hb
    simp only [ttbr, hb, error_bind, hmsg]
    intro hcontra
    injection hcontra with hcontra
    injection hcontra with hcontra
    exact absurd hcontra (by decide)
  | ok pr =>
    obtain ⟨base, kws1⟩ := pr
    rcases hkv : kwRemoveOr "asid" (.Bits (BVal.from_u16 0)) kws1 with ⟨b1, v1, rest1⟩
    rcases hkv2 : kwRemoveOr "vmid" (.Bits (BVal.from_u16 0)) rest1 with ⟨b2, v2, rest2⟩
    rcases hkv3 : kwRemoveOr "CnP" (.Bits BVal.bit_zero) rest2 with ⟨b3, v3, rest3⟩
    have hb1 : b1 = hasKey kws1 "asid" := by
      rw [← kwRemoveOr_flag "asid" (.Bits (BVal.from_u16 0)) kws1, hkv]
    have hb2 : b2 = hasKey rest1 "vmid" := by
      rw [← kwRemoveOr_flag "vmid" (.Bits (BVal.from_u16 0)) rest1, hkv2]
    have hrest : hasKey rest1 "vmid" = hasKey kws1 "vmid" := by
      have := kwRemoveOr_hasKey_rest "asid" (.Bits (BVal.from_u16 0)) "vmid" (by decide) kws1
      rw [hkv] at this
      exact this
    have hasid : hasKey kws1 "asid" = hasKey kws "asid" :=
      kwRemove_hasKey_rest "ttbr" "base" "asid" (by decide) kws base kws1 hb
    have hvmid : hasKey kws1 "vmid" = hasKey kws "vmid" :=
      kwRemove_hasKey_rest "ttbr" "base" "vmid" (by decide) kws base kws1 hb
    have hne2 : b1 ≠ b2 := by rw [hb1, hb2, hrest, hasid, hvmid]; exact h
    simp only [ttbr, hb, ok_bind, hkv, hkv2, hkv3]
    rw [if_neg hne2]
    split
    · cases hs1 : primop.set_slice_internal base (.I128 48) v1 with
      | error err =>
        simp only [hs1, error_bind]
        intro hcontra
        injection hcontra with hcontra
        rw [set_slice_error_msg _ _ _ _ hs1] at hcontra
        injection hcontra with hcontra
        exact absurd hcontra (by decide)
      | ok bits =>
        simp only [hs1, ok_bind]
        cases hs2 : primop.set_slice_internal bits (.I128 0) v3 with
        | error err =>
          intro hcontra
          injection hcontra with hcontra
          rw [set_slice_error_msg _ _ _ _ hs2] at hcontra
          injection hcontra with hcontra
          exact absurd hcontra (by decide)
        | ok v4 => intro hcontra; exact Except.noConfusion hcontra
    · cases hs1 : primop.set_slice_internal base (.I128 48) v2 with
      | error err =>
        simp only [hs1, error_bind]
        intro hcontra
        injection hcontra with hcontra
        rw [set_slice_error_msg _ _ _ _ hs1] at hcontra
        injection hcontra with hcontra
        exact absurd hcontra (by decide)
      | ok bits =>
        simp only [hs1, ok_bind]
        cases hs2 : primop.set_slice_internal bits (.I128 0) v3 with
        | error err =>
          intro hcontra
          injection hcontra with hcontra
          rw [set_slice_error_msg _ _ _ _ hs2] at hcontra
          injection hcontra with hcontra
          exact absurd hcontra (by decide)
        | ok v4 => intro hcontra; exact Except.noConfusion hcontra



lemma mkdesc_both_or_neither (args : List Val) (kws : List (String × Val)) (mem : Memory)
    (h : hasKey kws "table" = hasKey kws "oa") :
    ∃ m, mkdesc args ⟨kws⟩ mem = .error (.Type m) := by
  rcases hkv : kwRemoveOr "table" (.Bits (BVal.from_u64 0)) kws with ⟨b1, v1, rest1⟩
  rcases hkv2 : kwRemoveOr "oa" (.Bits (BVal.from_u16 0)) rest1 with ⟨b2, v2, rest2⟩
  have hb1 : b1 = hasKey kws "table" := by
    rw [← kwRemoveOr_flag "table" (.Bits (BVal.from_u64 0)) kws, hkv]
  have hb2 : b2 = hasKey rest1 "oa" := by
    rw [← kwRemoveOr_flag "oa" (.Bits (BVal.from_u16 0)) rest1, hkv2]
  have hrest : hasKey rest1 "oa" = hasKey kws "oa" := by
    have := kwRemoveOr_hasKey_rest "table" (.Bits (BVal.from_u64 0)) "oa" (by decide) kws
    rw [hkv] at this
    exact this
  have heq : b1 = b2 := by rw [hb1, hb2, hrest, h]
  refine ⟨"mkdesc must have either a table or an oa argument", ?_⟩
  simp only [mkdesc, hkv, hkv2]
  rw [if_pos heq]

lemma mkdesc_exactly_one (args : List Val) (kws : List (String × Val)) (mem : Memory)
    (h : hasKey kws "table" ≠ hasKey kws "oa") :
    mkdesc args ⟨kws⟩ mem ≠
      .error (.Type "mkdesc must have either a table or an oa argument") := by
  rcases hkv : kwRemoveOr "table" (.Bits (BVal.from_u64 0)) kws with ⟨b1, v1, rest1⟩
  rcases hkv2 : kwRemoveOr "oa" (.Bits (BVal.from_u16 0)) rest1 with ⟨b2, v2, rest2⟩
  have hb1 : b1 = hasKey kws "table" := by
    rw [← kwRemoveOr_flag "table" (.Bits (BVal.from_u64 0)) kws, hkv]
  have hb2 : b2 = hasKey rest1 "oa" := by
    rw [← kwRemoveOr_flag "oa" (.Bits (BVal.from_u16 0)) rest1, hkv2]
  have hrest : hasKey rest1 "oa" = hasKey kws "oa" := by
    have := kwRemoveOr_hasKey_rest "table" (.Bits (BVal.from_u64 0)) "oa" (by decide) kws
    rw [hkv] at this
    exact this
  have hne2 : b1 ≠ b2 := by rw [hb1, hb2, hrest]; exact h
  simp only [mkdesc, hkv, hkv2]
  rw [if_neg hne2]
  split
  · cases ho : primop.or_bits v1 (.Bits (BVal.from_u64 0b11)) with
    | error err =>
      intro hcontra
      injection hcontra with hcontra
      rcases or_bits_error_msg _ _ _ ho with hm | hm <;>
        (rw [hm] at hcontra; injection hcontra with hcontra; exact absurd hcontra (by decide))
    | ok v4 => intro hcontra; exact Except.noConfusion hcontra
  · cases ho : primop.or_bits v2 (.Bits (BVal.from_u64 0b01)) with
    | error err =>
      simp only [ho, error_bind]
      intro hcontra
      injection hcontra with hcontra
      rcases or_bits_error_msg _ _ _ ho with hm | hm <;>
        (rw [hm] at hcontra; injection hcontra with hcontra; exact absurd hcontra (by decide))
    | ok vb =>
      simp only [ho, ok_bind]
      cases ho2 : primop.or_bits vb (.Bits (BVal.from_u64 s1_default_attrs)) with
      | error err =>
        intro hcontra
        injection hcontra with hcontra
        rcases or_bits_error_msg _ _ _ ho2 with hm | hm <;>
          (rw [hm] at hcontra; injection hcontra with hcontra; exact absurd hcontra (by decide))
      | ok v4 => intro hcontra; exact Except.noConfusion hcontra



/-- C4: for `index`, `offset`, `ttbr` and `mkdesc` (registered as
`mkdesc1`/`mkdesc2`), when the primitive's exclusive keyword pair
(`va`/`ipa`, `asid`/`vmid`, `table`/`oa`) is both present or both absent
the call fails with a `Type` error, and when exactly one is present it
never fails with that exclusivity error. -/
theorem exclusive_keyword_pairs (args : List Val) (kws : List (String × Val))
    (mem : Memory) :
    (hasKey kws "va" = hasKey kws "ipa" →
      ∃ m, index args ⟨kws⟩ mem = .error (.Type m)) ∧
    (hasKey kws "va" ≠ hasKey kws "ipa" →
      index args ⟨kws⟩ mem ≠
        .error (.Type "index must have either a va or an ipa argument")) ∧
    (hasKey kws "va" = hasKey kws "ipa" →
      ∃ m, offset args ⟨kws⟩ mem = .error (.Type m)) ∧
    (hasKey kws "va" ≠ hasKey kws "ipa" →
      offset args ⟨kws⟩ mem ≠
        .error (.Type "offset must have either a va or an ipa argument")) ∧
    (hasKey kws "asid" = hasKey kws "vmid" →
      ∃ m, ttbr args ⟨kws⟩ mem = .error (.Type m)) ∧
    (hasKey kws "asid" ≠ hasKey kws "vmid" →
      ttbr args ⟨kws⟩ mem ≠
        .error (.Type "ttbr must have either a vmid or an asid argument")) ∧
    (hasKey kws "table" = hasKey kws "oa" →
      ∃ m, mkdesc args ⟨kws⟩ mem = .error (.Type m)) ∧
    (hasKey kws "table" ≠ hasKey kws "oa" →
      mkdesc args ⟨kws⟩ mem ≠
        .error (.Type "mkdesc must have either a table or an oa argument")) ∧
    litmus_primops "mkdesc1" = some mkdesc ∧
    litmus_primops "mkdesc2" = some mkdesc :=
  ⟨index_both_or_neither args kws mem,
   index_exactly_one args kws mem,
   offset_both_or_neither args kws mem,
   offset_exactly_one args kws mem,
   ttbr_both_or_neither args kws mem,
   ttbr_exactly_one args kws mem,
   mkdesc_both_or_neither args kws mem,
   mkdesc_exactly_one args kws mem,
   rfl, rfl⟩

/-- Witness for C4: `index` with neither `va` nor `ipa` fails; `mkdesc`
with only `table` does not raise the exclusivity error. -/
theorem exclusive_keyword_pairs_witness :
    hasKey [("level", Val.I128 0)] "va" = hasKey [("level", Val.I128 0)] "ipa" ∧
    (∃ m, index [] ⟨[("level", Val.I128 0)]⟩ mem0 = .error (.Type m)) ∧
    hasKey [("table", Val.Bits (BVal.from_u64 0x8000))] "table" ≠
      hasKey [("table", Val.Bits (BVal.from_u64 0x8000))] "oa" ∧
    mkdesc [] ⟨[("table", Val.Bits (BVal.from_u64 0x8000))]⟩ mem0 ≠
      .error (.Type "mkdesc must have either a table or an oa argument") :=
  ⟨rfl,
   (exclusive_keyword_pairs [] [("level", Val.I128 0)] mem0).1 rfl,
   by decide,
   (exclusive_keyword_pairs [] [("table", Val.Bits (BVal.from_u64 0x8000))] mem0).2.2.2.2.2.2.2.1
     (by decide)⟩

lemma and_bits_ok_bits (a b : Val) (v : Val) (h : primop.and_bits a b = .ok v) :
    residualisable v = true := by
  cases a <;> cases b <;>
    first
      | exact Except.noConfusion h
      | (simp only [primop.and_bits] at h
         split at h
         · injection h with h; rw [← h]; rfl
         · exact Except.noConfusion h)

lemma or_bits_ok_bits (a b : Val) (v : Val) (h : primop.or_bits a b = .ok v) :
    residualisable v = true := by
  cases a <;> cases b <;>
    first
      | exact Except.noConfusion h
      | (simp only [primop.or_bits] at h
         split at h
         · injection h with h; rw [← h]; rfl
         · exact Except.noConfusion h)

lemma xor_bits_ok_bits (a b : Val) (v : Val) (h : primop.xor_bits a b = .ok v) :
    residualisable v = true := by
  cases a <;> cases b <;>
    first
      | exact Except.noConfusion h
      | (simp only [primop.xor_bits] at h
         split at h
         · injection h with h; rw [← h]; rfl
         · exact Except.noConfusion h)

lemma shift_bits_right_ok_bits (a b : Val) (v : Val)
    (h : primop.shift_bits_right a b = .ok v) : residualisable v = true := by
  cases a <;> cases b <;>
    first
      | exact Except.noConfusion h
      | (injection h with h; rw [← h]; rfl)

lemma shift_bits_left_ok_bits (a b : Val) (v : Val)
    (h : primop.shift_bits_left a b = .ok v) : residualisable v = true := by
  cases a <;> cases b <;>
    first
      | exact Except.noConfusion h
      | (injection h with h; rw [← h]; rfl)

lemma zero_extend_ok_bits (a b : Val) (v : Val)
    (h : primop.zero_extend a b = .ok v) : residualisable v = true := by
  cases a <;> cases b <;>
    first
      | exact Except.noConfusion h
      | (simp only [primop.zero_extend] at h
         split at h
         · injection h with h; rw [← h]; rfl
         · exact Except.noConfusion h)

lemma sign_extend_ok_bits (a b : Val) (v : Val)
    (h : primop.sign_extend a b = .ok v) : residualisable v = true := by
  cases a <;> cases b <;>
    first
      | exact Except.noConfusion h
      | (simp only [primop.sign_extend] at h
         split at h
         · injection h with h; rw [← h]; rfl
         · exact Except.noConfusion h)

lemma set_slice_ok_bits (a b c : Val) (v : Val)
    (h : primop.set_slice_internal a b c = .ok v) : residualisable v = true := by
  cases a <;> cases b <;> cases c <;>
    first
      | exact Except.noConfusion h
      | (injection h with h; rw [← h]; rfl)

lemma subrange_ok_bits (a b c : Val) (v : Val)
    (h : primop.subrange_internal a b c = .ok v) : residualisable v = true := by
  cases a <;> cases b <;> cases c <;>
    first
      | exact Except.noConfusion h
      | (injection h with h; rw [← h]; rfl)



lemma walk_wrap_ok_bits (args : List Val) (mem : Memory) (v : Val)
    (g : TranslationTableWalk → Nat)
    (h : (do
        let walk ← translation_table_walk args mem
        Except.ok (.Bits (BVal.from_u64 (g walk)))) = Except.ok v) :
    residualisable v = true := by
  cases hw : translation_table_walk args mem with
  | error err => rw [hw] at h; simp only [error_bind] at h; exact Except.noConfusion h
  | ok w =>
    rw [hw] at h; simp only [ok_bind] at h
    injection h with h; rw [← h]; rfl

lemma pte0_ok_res (args : List Val) (kw : KwArgs) (mem : Memory) (v : Val)
    (h : pte0 args kw mem = .ok v) : residualisable v = true :=
  walk_wrap_ok_bits args mem v (fun w => w.l0pte) h

lemma pte1_ok_res (args : List Val) (kw : KwArgs) (mem : Memory) (v : Val)
    (h : pte1 args kw mem = .ok v) : residualisable v = true :=
  walk_wrap_ok_bits args mem v (fun w => w.l1pte) h

lemma pte2_ok_res (args : List Val) (kw : KwArgs) (mem : Memory) (v : Val)
    (h : pte2 args kw mem = .ok v) : residualisable v = true :=
  walk_wrap_ok_bits args mem v (fun w => w.l2pte) h

lemma pte3_ok_res (args : List Val) (kw : KwArgs) (mem : Memory) (v : Val)
    (h : pte3 args kw mem = .ok v) : residualisable v = true :=
  walk_wrap_ok_bits args mem v (fun w => w.l3pte) h

lemma desc0_ok_res (args : List Val) (kw : KwArgs) (mem : Memory) (v : Val)
    (h : desc0 args kw mem = .ok v) : residualisable v = true :=
  walk_wrap_ok_bits args mem v (fun w => w.l0desc) h

lemma desc1_ok_res (args : List Val) (kw : KwArgs) (mem : Memory) (v : Val)
    (h : desc1 args kw mem = .ok v) : residualisable v = true :=
  walk_wrap_ok_bits args mem v (fun w => w.l1desc) h

lemma desc2_ok_res (args : List Val) (kw : KwArgs) (mem : Memory) (v : Val)
    (h : desc2 args kw mem = .ok v) : residualisable v = true :=
  walk_wrap_ok_bits args mem v (fun w => w.l2desc) h

lemma desc3_ok_res (args : List Val) (kw : KwArgs) (mem : Memory) (v : Val)
    (h : desc3 args kw mem = .ok v) : residualisable v = true :=
  walk_wrap_ok_bits args mem v (fun w => w.l3desc) h

lemma pa_ok_res (args : List Val) (kw : KwArgs) (mem : Memory) (v : Val)
    (h : pa args kw mem = .ok v) : residualisable v = true :=
  walk_wrap_ok_bits args mem v (fun w => w.pa) h



lemma bvand_ok_res (args : List Val) (kw : KwArgs) (mem : Memory) (v : Val)
    (h : bvand args kw mem = .ok v) : residualisable v = true := by
  simp only [bvand] at h
  split at h
  · exact and_bits_ok_bits _ _ _ h
  · exact Except.noConfusion h

lemma bvor_ok_res (args : List Val) (kw : KwArgs) (mem : Memory) (v : Val)
    (h : bvor args kw mem = .ok v) : residualisable v = true := by
  simp only [bvor] at h
  split at h
  · exact or_bits_ok_bits _ _ _ h
  · exact Except.noConfusion h

lemma bvxor_ok_res (args : List Val) (kw : KwArgs) (mem : Memory) (v : Val)
    (h : bvxor args kw mem = .ok v) : residualisable v = true := by
  simp only [bvxor] at h
  split at h
  · exact xor_bits_ok_bits _ _ _ h
  · exact Except.noConfusion h

lemma bvlshr_ok_res (args : List Val) (kw : KwArgs) (mem : Memory) (v : Val)
    (h : bvlshr args kw mem = .ok v) : residualisable v = true := by
  simp only [bvlshr] at h
  split at h
  · exact shift_bits_right_ok_bits _ _ _ h
  · exact Except.noConfusion h

lemma bvshl_ok_res (args : List Val) (kw : KwArgs) (mem : Memory) (v : Val)
    (h : bvshl args kw mem = .ok v) : residualisable v = true := by
  simp only [bvshl] at h
  split at h
  · exact shift_bits_left_ok_bits _ _ _ h
  · exact Except.noConfusion h

lemma page_ok_res (args : List Val) (kw : KwArgs) (mem : Memory) (v : Val)
    (h : page args kw mem = .ok v) : residualisable v = true := by
  simp only [page] at h
  split at h
  · exact subrange_ok_bits _ _ _ _ h
  · exact Except.noConfusion h

lemma extz_ok_res (args : List Val) (kw : KwArgs) (mem : Memory) (v : Val)
    (h : extz args kw mem = .ok v) : residualisable v = true := by
  simp only [extz] at h
  split at h
  · exact zero_extend_ok_bits _ _ _ h
  · exact Except.noConfusion h

lemma exts_ok_res (args : List Val) (kw : KwArgs) (mem : Memory) (v : Val)
    (h : exts args kw mem = .ok v) : residualisable v = true := by
  simp only [exts] at h
  split at h
  · exact sign_extend_ok_bits _ _ _ h
  · exact Except.noConfusion h



lemma index_ok_res (args : List Val) (kw : KwArgs) (mem : Memory) (v : Val)
    (h : index args kw mem = .ok v) : residualisable v = true := by
  simp only [index] at h
  cases hlv : kwRemove "index" "level" kw.kw_args with
  | error err => rw [hlv] at h; simp only [error_bind] at h; exact Except.noConfusion h
  | ok pr =>
    obtain ⟨level, kws1⟩ := pr
    rw [hlv] at h; simp only [ok_bind] at h
    rcases hkv : kwRemoveOr "va" (.Bits (BVal.from_u64 0)) kws1 with ⟨b1, v1, rest1⟩
    rw [hkv] at h
    rcases hkv2 : kwRemoveOr "ipa" (.Bits (BVal.from_u64 0)) rest1 with ⟨b2, v2, rest2⟩
    rw [hkv2] at h
    split at h
    · exact Except.noConfusion h
    · split at h
      · split at h
        · injection h with h; rw [← h]; rfl
        · exact Except.noConfusion h
      · exact Except.noConfusion h

lemma offset_ok_res (args : List Val) (kw : KwArgs) (mem : Memory) (v : Val)
    (h : offset args kw mem = .ok v) : residualisable v = true := by
  simp only [offset] at h
  cases hlv : kwRemove "offset" "level" kw.kw_args with
  | error err => rw [hlv] at h; simp only [error_bind] at h; exact Except.noConfusion h
  | ok pr =>
    obtain ⟨level, kws1⟩ := pr
    rw [hlv] at h; simp only [ok_bind] at h
    rcases hkv : kwRemoveOr "va" (.Bits (BVal.from_u64 0)) kws1 with ⟨b1, v1, rest1⟩
    rw [hkv] at h
    rcases hkv2 : kwRemoveOr "ipa" (.Bits (BVal.from_u64 0)) rest1 with ⟨b2, v2, rest2⟩
    rw [hkv2] at h
    split at h
    · exact Except.noConfusion h
    · split at h
      · split at h
        · injection h with h; rw [← h]; rfl
        · exact Except.noConfusion h
      · exact Except.noConfusion h

lemma ttbr_ok_res (args : List Val) (kw : KwArgs) (mem : Memory) (v : Val)
    (h : ttbr args kw mem = .ok v) : residualisable v = true := by
  simp only [ttbr] at h
  cases hb : kwRemove "ttbr" "base" kw.kw_args with
  | error err => rw [hb] at h; simp only [error_bind] at h; exact Except.noConfusion h
  | ok pr =>
    obtain ⟨base, kws1⟩ := pr
    rw [hb] at h; simp only [ok_bind] at h
    rcases hkv : kwRemoveOr "asid" (.Bits (BVal.from_u16 0)) kws1 with ⟨b1, v1, rest1⟩
    rw [hkv] at h
    rcases hkv2 : kwRemoveOr "vmid" (.Bits (BVal.from_u16 0)) rest1 with ⟨b2, v2, rest2⟩
    rw [hkv2] at h
    rcases hkv3 : kwRemoveOr "CnP" (.Bits BVal.bit_zero) rest2 with ⟨b3, v3, rest3⟩
    rw [hkv3] at h
    split at h
    · exact Except.noConfusion h
    · split at h
      · cases hs1 : primop.set_slice_internal base (.I128 48) v1 with
        | error err => rw [hs1] at h; simp only [error_bind] at h; exact Except.noConfusion h
        | ok bits =>
          rw [hs1] at h; simp only [ok_bind] at h
          exact set_slice_ok_bits _ _ _ _ h
      · cases hs1 : primop.set_slice_internal base (.I128 48) v2 with
        | error err => rw [hs1] at h; simp only [error_bind] at h; exact Except.noConfusion h
        | ok bits =>
          rw [hs1] at h; simp only [ok_bind] at h
          exact set_slice_ok_bits _ _ _ _ h

lemma asid_ok_res (args : List Val) (kw : KwArgs) (mem : Memory) (v : Val)
    (h : asid args kw mem = .ok v) : residualisable v = true := by
  simp only [asid] at h
  split at h
  · rename_i asid_v heq
    cases hs1 : primop.set_slice_internal (.Bits (BVal.from_u16 0)) (.I128 48) asid_v with
    | error err => rw [hs1] at h; simp only [error_bind] at h; exact Except.noConfusion h
    | ok bits =>
      rw [hs1] at h; simp only [ok_bind] at h
      exact zero_extend_ok_bits _ _ _ h
  · exact Except.noConfusion h

lemma mkdesc_ok_res (args : List Val) (kw : KwArgs) (mem : Memory) (v : Val)
    (h : mkdesc args kw mem = .ok v) : residualisable v = true := by
  simp only [mkdesc] at h
  rcases hkv : kwRemoveOr "table" (.Bits (BVal.from_u64 0)) kw.kw_args with ⟨b1, v1, rest1⟩
  rw [hkv] at h
  rcases hkv2 : kwRemoveOr "oa" (.Bits (BVal.from_u16 0)) rest1 with ⟨b2, v2, rest2⟩
  rw [hkv2] at h
  split at h
  · exact Except.noConfusion h
  · split at h
    · exact or_bits_ok_bits _ _ _ h
    · cases ho : primop.or_bits v2 (.Bits (BVal.from_u64 0b01)) with
      | error err => rw [ho] at h; simp only [error_bind] at h; exact Except.noConfusion h
      | ok vb =>
        rw [ho] at h; simp only [ok_bind] at h
        exact or_bits_ok_bits _ _ _ h

lemma mkdesc3_ok_res (args : List Val) (kw : KwArgs) (mem : Memory) (v : Val)
    (h : mkdesc3 args kw mem = .ok v) : residualisable v = true := by
  simp only [mkdesc3] at h
  cases hkv : kwRemove "mkdesc3" "oa" kw.kw_args with
  | error err => rw [hkv] at h; simp only [error_bind] at h; exact Except.noConfusion h
  | ok pr =>
    obtain ⟨oa, rest⟩ := pr
    rw [hkv] at h; simp only [ok_bind] at h
    cases ho : primop.or_bits oa (.Bits (BVal.from_u64 0b11)) with
    | error err => rw [ho] at h; simp only [error_bind] at h; exact Except.noConfusion h
    | ok vb =>
      rw [ho] at h; simp only [ok_bind] at h
      exact or_bits_ok_bits _ _ _ h



lemma litmus_fn_ok_res (f : String) (fn : LitmusFn) (hf : litmus_primops f = some fn)
    (args : List Val) (kw : KwArgs) (mem : Memory) (v : Val)
    (hv : fn args kw mem = .ok v) : residualisable v = true := by
  simp only [litmus_primops] at hf
  split at hf <;>
    first
      | exact Option.noConfusion hf
      | (injection hf with hf
         subst hf
         first
           | exact pte0_ok_res args kw mem v hv
           | exact pte1_ok_res args kw mem v hv
           | exact pte2_ok_res args kw mem v hv
           | exact pte3_ok_res args kw mem v hv
           | exact desc0_ok_res args kw mem v hv
           | exact desc1_ok_res args kw mem v hv
           | exact desc2_ok_res args kw mem v hv
           | exact desc3_ok_res args kw mem v hv
           | exact pa_ok_res args kw mem v hv
           | exact page_ok_res args kw mem v hv
           | exact extz_ok_res args kw mem v hv
           | exact exts_ok_res args kw mem v hv
           | exact ttbr_ok_res args kw mem v hv
           | exact asid_ok_res args kw mem v hv
           | exact mkdesc_ok_res args kw mem v hv
           | exact mkdesc3_ok_res args kw mem v hv
           | exact bvand_ok_res args kw mem v hv
           | exact bvor_ok_res args kw mem v hv
           | exact bvxor_ok_res args kw mem v hv
           | exact bvlshr_ok_res args kw mem v hv
           | exact bvshl_ok_res args kw mem v hv
           | exact index_ok_res args kw mem v hv
           | exact offset_ok_res args kw mem v hv)

lemma partial_eval_evaluated_res (memory : Memory) (addrs pas : List (String × Nat))
    (labelf : LabelFn) (e : Exp String) (v : Val)
    (h : partial_eval memory addrs pas labelf e = .ok (.Evaluated v)) :
    residualisable v = true := by
  cases e with
  | EqLoc loc sub =>
    exact absurd h
      (partial_eval_connective_not_evaluated memory addrs pas labelf (.EqLoc loc sub) rfl v)
  | And es =>
    exact absurd h
      (partial_eval_connective_not_evaluated memory addrs pas labelf (.And es) rfl v)
  | Or es =>
    exact absurd h
      (partial_eval_connective_not_evaluated memory addrs pas labelf (.Or es) rfl v)
  | Not sub =>
    exact absurd h
      (partial_eval_connective_not_evaluated memory addrs pas labelf (.Not sub) rfl v)
  | Implies e1 e2 =>
    exact absurd h
      (partial_eval_connective_not_evaluated memory addrs pas labelf (.Implies e1 e2) rfl v)
  | Loc a =>
    simp only [partial_eval] at h
    cases ha : assocLookup addrs a with
    | some bits => rw [ha] at h; injection h with h; injection h with h; rw [← h]; rfl
    | none => rw [ha] at h; exact Except.noConfusion h
  | Label l =>
    simp only [partial_eval] at h
    cases ha : labelf l with
    | some addr => rw [ha] at h; injection h with h; injection h with h; rw [← h]; rfl
    | none => rw [ha] at h; exact Except.noConfusion h
  | True => injection h with h; injection h with h; rw [← h]; rfl
  | False => injection h with h; injection h with h; rw [← h]; rfl
  | Bits64 bits len => injection h with h; injection h with h; rw [← h]; rfl
  | Nat n => injection h with h; injection h with h; rw [← h]; rfl
  | Bin s =>
    simp only [partial_eval] at h
    split at h
    · injection h with h; injection h with h; rw [← h]; rfl
    · exact Except.noConfusion h
  | Hex s =>
    simp only [partial_eval] at h
    split at h
    · injection h with h; injection h with h; rw [← h]; rfl
    · exact Except.noConfusion h
  | App f args kws =>
    simp only [partial_eval] at h
    cases hargs : partial_eval_args memory addrs pas labelf args with
    | error err => rw [hargs] at h; simp only [error_bind] at h; exact Except.noConfusion h
    | ok ps =>
      rw [hargs] at h; simp only [ok_bind] at h
      cases hkws : partial_eval_kws memory addrs pas labelf kws with
      | error err => rw [hkws] at h; simp only [error_bind] at h; exact Except.noConfusion h
      | ok pk =>
        rw [hkws] at h; simp only [ok_bind] at h
        split at h
        · cases hf : litmus_primops f with
          | none => rw [hf] at h; dsimp only at h; exact Except.noConfusion h
          | some fn =>
            rw [hf] at h
            dsimp only at h
            cases hv : fn (ps.map Partial.unwrapD)
                ⟨pk.map (fun kv => (kv.1, kv.2.unwrapD))⟩ memory with
            | error err => rw [hv] at h; simp only [error_bind] at h; exact Except.noConfusion h
            | ok v2 =>
              rw [hv] at h; simp only [ok_bind] at h
              injection h with h
              injection h with h
              rw [← h]
              exact litmus_fn_ok_res f fn hf _ _ memory v2 hv
        · cases hr : residualiseArgs ps with
          | error err => rw [hr] at h; simp only [error_bind] at h; exact Except.noConfusion h
          | ok l =>
            rw [hr] at h; simp only [ok_bind] at h
            cases hr2 : residualiseKws pk with
            | error err => rw [hr2] at h; simp only [error_bind] at h; exact Except.noConfusion h
            | ok l2 =>
              rw [hr2] at h; simp only [ok_bind] at h
              injection h with h
              exact Partial.noConfusion h



lemma partial_eval_kws_forward (memory : Memory) (addrs pas : List (String × Nat))
    (labelf : LabelFn) :
    ∀ (es : List (String × Exp String)) (pk : List (String × Partial Nat)),
      partial_eval_kws memory addrs pas labelf es = .ok pk →
      ∀ kv ∈ pk, ∃ e, partial_eval memory addrs pas labelf e = .ok kv.2 := by
  intro es
  induction es with
  | nil =>
    intro pk h kv hkv
    injection h with h
    rw [← h] at hkv
    exact absurd hkv (List.not_mem_nil kv)
  | cons hd tl ih =>
    intro pk h kv hkv
    obtain ⟨k, e⟩ := hd
    simp only [partial_eval_kws] at h
    cases hp : partial_eval memory addrs pas labelf e with
    | error err => rw [hp] at h; simp only [error_bind] at h; exact Except.noConfusion h
    | ok p =>
      rw [hp] at h; simp only [ok_bind] at h
      cases hr : partial_eval_kws memory addrs pas labelf tl with
      | error err => rw [hr] at h; simp only [error_bind] at h; exact Except.noConfusion h
      | ok rest =>
        rw [hr] at h; simp only [ok_bind] at h
        injection h with h
        rw [← h] at hkv
        rcases List.mem_cons.mp hkv with rfl | htl
        · exact ⟨e, hp⟩
        · exact ih rest hr kv htl

lemma into_exp_ok_of_res {A : Type} (v : Val) (h : residualisable v = true) :
    ∃ e, (Partial.into_exp (A := A) (.Evaluated v)) = .ok e := by
  cases v with
  | Bits bv => exact ⟨_, rfl⟩
  | Bool b => cases b with
    | true => exact ⟨_, rfl⟩
    | false => exact ⟨_, rfl⟩
  | I128 n => exact ⟨_, rfl⟩
  | Unit => exact absurd h (by simp [residualisable])
  | Symbolic n => exact absurd h (by simp [residualisable])

lemma into_exp_total (memory : Memory) (addrs pas : List (String × Nat))
    (labelf : LabelFn) (e : Exp String) (p : Partial Nat)
    (h : partial_eval memory addrs pas labelf e = .ok p) :
    ∃ e2, p.into_exp = .ok e2 := by
  cases p with
  | Unevaluated r => exact ⟨r, rfl⟩
  | Evaluated v =>
    exact into_exp_ok_of_res v (partial_eval_evaluated_res memory addrs pas labelf e v h)

lemma residualiseArgs_total :
    ∀ ps : List (Partial Nat),
      (∀ p ∈ ps, ∃ e2, p.into_exp = .ok e2) →
      ∃ l, residualiseArgs ps = .ok l := by
  intro ps
  induction ps with
  | nil => intro _; exact ⟨[], rfl⟩
  | cons p tl ih =>
    intro h
    obtain ⟨e2, he2⟩ := h p (List.mem_cons_self _ _)
    obtain ⟨l, hl⟩ := ih (fun q hq => h q (List.mem_cons_of_mem _ hq))
    refine ⟨e2 :: l, ?_⟩
    simp only [residualiseArgs, he2, ok_bind, hl]

lemma residualiseKws_total :
    ∀ pk : List (String × Partial Nat),
      (∀ kv ∈ pk, ∃ e2, kv.2.into_exp = .ok e2) →
      ∃ l, residualiseKws pk = .ok l := by
  intro pk
  induction pk with
  | nil => intro _; exact ⟨[], rfl⟩
  | cons kv tl ih =>
    intro h
    obtain ⟨k, p⟩ := kv
    obtain ⟨e2, he2⟩ := h (k, p) (List.mem_cons_self _ _)
    obtain ⟨l, hl⟩ := ih (fun q hq => h q (List.mem_cons_of_mem _ hq))
    refine ⟨(k, e2) :: l, ?_⟩
    simp only [residualiseKws, he2, ok_bind, hl]



lemma partial_eval_args_backward (memory : Memory) (addrs pas : List (String × Nat))
    (labelf : LabelFn) :
    ∀ (es : List (Exp String)) (ps : List (Partial Nat)),
      partial_eval_args memory addrs pas labelf es = .ok ps →
      ∀ p ∈ ps, ∃ e, partial_eval memory addrs pas labelf e = .ok p := by
  intro es
  induction es with
  | nil =>
    intro ps h p hp
    injection h with h
    rw [← h] at hp
    exact absurd hp (List.not_mem_nil p)
  | cons hd tl ih =>
    intro ps h p hp
    simp only [partial_eval_args] at h
    cases hph : partial_eval memory addrs pas labelf hd with
    | error err => rw [hph] at h; simp only [error_bind] at h; exact Except.noConfusion h
    | ok q =>
      rw [hph] at h; simp only [ok_bind] at h
      cases hr : partial_eval_args memory addrs pas labelf tl with
      | error err => rw [hr] at h; simp only [error_bind] at h; exact Except.noConfusion h
      | ok rest =>
        rw [hr] at h; simp only [ok_bind] at h
        injection h with h
        rw [← h] at hp
        rcases List.mem_cons.mp hp with rfl | htl
        · exact ⟨hd, hph⟩
        · exact ih rest hr p htl

/-- C10: when every argument of an `App` partially evaluates but at least
one result is `Unevaluated`, the `App` is rebuilt as an `Unevaluated`
residual carrying the same (possibly unknown) function name, without
consulting the primitive table — so the unknown-primitive `Type` error can
only arise when every positional and keyword argument is `Evaluated`. -/
theorem unknown_app_residualises (memory : Memory) (addrs pas : List (String × Nat))
    (labelf : LabelFn) (f : String) (args : List (Exp String))
    (kws : List (String × Exp String)) (ps : List (Partial Nat))
    (pk : List (String × Partial Nat))
    (hargs : partial_eval_args memory addrs pas labelf args = .ok ps)
    (hkws : partial_eval_kws memory addrs pas labelf kws = .ok pk)
    (hne : (ps.all Partial.is_evaluated && pk.all fun kv => kv.2.is_evaluated) = false) :
    ∃ eargs ekws, partial_eval memory addrs pas labelf (.App f args kws) =
      .ok (.Unevaluated (.App f eargs ekws)) := by
  have hps : ∀ p ∈ ps, ∃ e2, p.into_exp = .ok e2 := by
    intro p hp
    obtain ⟨e, he⟩ := partial_eval_args_backward memory addrs pas labelf args ps hargs p hp
    exact into_exp_total memory addrs pas labelf e p he
  have hpk : ∀ kv ∈ pk, ∃ e2, kv.2.into_exp = .ok e2 := by
    intro kv hkv
    obtain ⟨e, he⟩ := partial_eval_kws_forward memory addrs pas labelf kws pk hkws kv hkv
    exact into_exp_total memory addrs pas labelf e kv.2 he
  obtain ⟨l, hl⟩ := residualiseArgs_total ps hps
  obtain ⟨l2, hl2⟩ := residualiseKws_total pk hpk
  refine ⟨l, l2, ?_⟩
  simp only [partial_eval, hargs, ok_bind, hkws, hne, Bool.false_eq_true, if_false, hl, hl2]

/-- Witness for C10 at an unknown function name with one unevaluated
argument. -/
theorem unknown_app_residualises_witness :
    ∃ eargs ekws, partial_eval mem0 [] [] lf0 (.App "nosuchfn" [.Not .True] []) =
      .ok (.Unevaluated (.App "nosuchfn" eargs ekws)) :=
  unknown_app_residualises mem0 [] [] lf0 "nosuchfn" [.Not .True] []
    [.Unevaluated (.Not .True)] [] rfl rfl rfl

/-- C7: the `asid` primitive (also registered as `vmid`) cannot place a
16-bit value at bit 48 of a 64-bit zero field: it sets the slice into a
16-bit zero base — discarding the value — and then requests zero
extension to width 8, which fails with a `Type` error (in the source, a
failure inside the bit-vector collaborator), so `asid(0x42)` errors
instead of returning `0x0042_0000_0000_0000`. -/
theorem asid_cannot_place_value_at_bit_48 :
    litmus_primops "asid" = some asid ∧
    litmus_primops "vmid" = some asid ∧
    primop.set_slice_internal (.Bits (BVal.from_u16 0)) (.I128 48)
      (.Bits (BVal.from_u16 0x42)) = .ok (.Bits ⟨16, 0⟩) ∧
    asid [.Bits (BVal.from_u16 0x42)] ⟨[]⟩ mem0 =
      .error (.Type "zero_extend target width too small") ∧
    partial_eval mem0 [] [] lf0 (.App "asid" [.Bits64 0x42 16] []) =
      .error (.Type "zero_extend target width too small") :=
  ⟨rfl, rfl, rfl, rfl, rfl⟩

end IslaExp

